import Mathlib

set_option maxRecDepth 100000

/-
Verification of the Bucket Chat Protocol core (bucket_chat/core).

This file gives a shallow embedding, in Lean 4, of the protocol core:

  * `crypto.py`  — canonical JSON encoding, SHA-256 event hashing,
    event signing, signature verification wrappers, per-sender hash
    chain verification;
  * `events.py`  — the `Event` pydantic model, its validators, and the
    JSONL serialization boundary;
  * `storage.py` — storage addressing (`get_daily_log_path`,
    `generate_client_id`) and idempotent room creation
    (`ensure_room_structure`).

Python dictionaries holding JSON data are modelled as ordered
association lists of `(String, JsonVal)` pairs (a Python `dict`
preserves insertion order and has no duplicate keys).  Machine-level
primitives that the code takes from libraries are treated as follows:
SHA-256 (`hashlib.sha256`) and base64 (`base64.b64encode/b64decode`)
are implemented concretely below, byte for byte; the Ed25519 signing
and verification primitives from the `cryptography` package are taken
as parameters (`sign`, `edVerify`) of the functions that use them,
since the theorems below depend only on how the code around them
behaves, not on the curve arithmetic itself.
-/

/-- JSON values as used by the protocol: Python `None`, `bool`, `int`,
`str`, `list` and `dict` (the protocol never produces non-integral
numbers, so numerics are modelled as integers). -/
inductive JsonVal where
  | null : JsonVal
  | bool (b : Bool) : JsonVal
  | num (n : Int) : JsonVal
  | str (s : String) : JsonVal
  | arr (elems : List JsonVal) : JsonVal
  | obj (fields : List (String × JsonVal)) : JsonVal

/-- A Python dictionary holding an event: an insertion-ordered
association list. -/
abbrev EventDict := List (String × JsonVal)

/-- `d.get(k)` on a Python dict, as a raw lookup of the stored value
(first matching key). -/
def lookupField (d : EventDict) (k : String) : Option JsonVal :=
  (d.find? (fun p => p.1 == k)).map (fun p => p.2)

/-- `d.get(k)` as seen by Python code that compares the result with
`None`: a stored JSON `null` is the Python value `None`, which
`dict.get` also returns when the key is absent. -/
def pyGet (d : EventDict) (k : String) : Option JsonVal :=
  match lookupField d k with
  | some JsonVal.null => none
  | v => v

/-- `d.pop('signature', None)` after `d.copy()`: the dictionary without
its `signature` entry. -/
def dictPopSignature (d : EventDict) : EventDict :=
  d.filter (fun p => p.1 != "signature")

/-- `d[k] = v` on a Python dict: replace in place if the key exists,
otherwise append (insertion order). -/
def dictSet (d : EventDict) (k : String) (v : JsonVal) : EventDict :=
  if d.any (fun p => p.1 == k) then
    d.map (fun p => if p.1 == k then (k, v) else p)
  else
    d ++ [(k, v)]

/-- Python truthiness of a JSON value (`if not signature: ...`). -/
def pyTruthy : JsonVal → Bool
  | JsonVal.null => false
  | JsonVal.bool b => b
  | JsonVal.num n => n != 0
  | JsonVal.str s => s != ""
  | JsonVal.arr xs => !xs.isEmpty
  | JsonVal.obj kvs => !kvs.isEmpty

/-! ### Decimal printing of integers (as `json.dumps` / `repr` print them) -/

/-- Decimal digits, fuel-driven so that the definition evaluates by
kernel reduction (the fuel `n + 1` always suffices). -/
def natDigitsAux : Nat → Nat → List Char
  | 0, _ => []
  | fuel + 1, n =>
    if n < 10 then [Char.ofNat (48 + n)]
    else natDigitsAux fuel (n / 10) ++ [Char.ofNat (48 + n % 10)]

/-- Decimal digits of a natural number, most significant first. -/
def natDigits (n : Nat) : List Char := natDigitsAux (n + 1) n

/-- Decimal form of an integer, with a leading minus sign when
negative, exactly as Python prints an `int` in JSON. -/
def intChars (i : Int) : List Char :=
  if i < 0 then '-' :: natDigits i.natAbs else natDigits i.natAbs

/-! ### JSON serialization (`json.dumps` with compact separators) -/

/-- Hex digit characters, lowercase, as used in `\u00XX` escapes. -/
def hexDigitChar (n : Nat) : Char :=
  "0123456789abcdef".data.getD n '0'

/-- Escaping of one character inside a JSON string literal.  With
`ascii = true` this models `json.dumps` (default `ensure_ascii=True`,
non-ASCII escaped); with `ascii = false` it models the compact UTF-8
serializer behind pydantic's `model_dump_json` (only control
characters, the quote and the backslash are escaped). -/
def escapeChar (ascii : Bool) (c : Char) : List Char :=
  if c = '"' then ['\\', '"']
  else if c = '\\' then ['\\', '\\']
  else if c = '\n' then ['\\', 'n']
  else if c = '\t' then ['\\', 't']
  else if c = '\r' then ['\\', 'r']
  else if c = Char.ofNat 8 then ['\\', 'b']
  else if c = Char.ofNat 12 then ['\\', 'f']
  else if c.toNat < 32 || (ascii && c.toNat > 126) then
    ['\\', 'u', hexDigitChar (c.toNat / 4096 % 16), hexDigitChar (c.toNat / 256 % 16),
     hexDigitChar (c.toNat / 16 % 16), hexDigitChar (c.toNat % 16)]
  else [c]

/-- A JSON string literal, quotes included. -/
def printStringLit (ascii : Bool) (s : String) : List Char :=
  '"' :: s.data.flatMap (escapeChar ascii) ++ ['"']

mutual

/-- Compact JSON serialization of a value: `json.dumps` with
`separators=(',', ':')` (no insignificant whitespace); non-ASCII
escaping is governed by the `ascii` flag.  The escape for the literal
codepoints 123 and 125 below is the pair of object braces. -/
def printJson (ascii : Bool) : JsonVal → List Char
  | JsonVal.null => 'n' :: 'u' :: 'l' :: 'l' :: []
  | JsonVal.bool true => 't' :: 'r' :: 'u' :: 'e' :: []
  | JsonVal.bool false => 'f' :: 'a' :: 'l' :: 's' :: 'e' :: []
  | JsonVal.num n => intChars n
  | JsonVal.str s => printStringLit ascii s
  | JsonVal.arr xs => Char.ofNat 91 :: printArrItems ascii xs ++ [Char.ofNat 93]
  | JsonVal.obj kvs => Char.ofNat 123 :: printObjItems ascii kvs ++ [Char.ofNat 125]
termination_by structural v => v

/-- Array elements joined by `,`. -/
def printArrItems (ascii : Bool) : List JsonVal → List Char
  | [] => []
  | [x] => printJson ascii x
  | x :: y :: rest => printJson ascii x ++ ',' :: printArrItems ascii (y :: rest)
termination_by structural l => l

/-- Object members `"key":value` joined by `,`. -/
def printObjItems (ascii : Bool) : List (String × JsonVal) → List Char
  | [] => []
  | [(k, v)] => printStringLit ascii k ++ ':' :: printJson ascii v
  | (k, v) :: p :: rest =>
    printStringLit ascii k ++ ':' :: printJson ascii v ++ ',' :: printObjItems ascii (p :: rest)
termination_by structural l => l

end

/-- Lexicographic order on character lists by code point — Python's
comparison of strings. -/
def charListLe : List Char → List Char → Bool
  | [], _ => true
  | _ :: _, [] => false
  | a :: as, b :: bs =>
    if a.toNat < b.toNat then true
    else if b.toNat < a.toNat then false
    else charListLe as bs

/-- Python's `a <= b` on strings. -/
def strLe (a b : String) : Bool := charListLe a.data b.data

/-- Key-order comparison used by `json.dumps(sort_keys=True)`:
lexicographic comparison of the member names. -/
def keyLe (a b : String × JsonVal) : Prop := strLe a.1 b.1 = true

instance : DecidableRel keyLe := fun a b => inferInstanceAs (Decidable (strLe a.1 b.1 = true))

mutual

/-- The recursive key sorting performed by
`json.dumps(..., sort_keys=True)`: every object's members are sorted
lexicographically by name, at every nesting depth (a stable sort, like
Python's `sorted`; a stable sort's output is uniquely determined by
the key order and the input order, so insertion sort models it
exactly). -/
def sortJson : JsonVal → JsonVal
  | JsonVal.obj kvs => JsonVal.obj (List.insertionSort keyLe (sortJsonKVs kvs))
  | JsonVal.arr xs => JsonVal.arr (sortJsonList xs)
  | v => v
termination_by structural v => v

/-- `sortJson` mapped over array elements. -/
def sortJsonList : List JsonVal → List JsonVal
  | [] => []
  | x :: rest => sortJson x :: sortJsonList rest
termination_by structural l => l

/-- `sortJson` mapped over object member values. -/
def sortJsonKVs : List (String × JsonVal) → List (String × JsonVal)
  | [] => []
  | (k, v) :: rest => (k, sortJson v) :: sortJsonKVs rest
termination_by structural l => l

end

/-! ### UTF-8 and base64 (`.encode('utf-8')`, `base64.b64encode/b64decode`) -/

/-- UTF-8 encoding of one character. -/
def utf8Char (c : Char) : List Nat :=
  let n := c.toNat
  if n < 128 then [n]
  else if n < 2048 then [192 + n / 64, 128 + n % 64]
  else if n < 65536 then [224 + n / 4096, 128 + n / 64 % 64, 128 + n % 64]
  else [240 + n / 262144, 128 + n / 4096 % 64, 128 + n / 64 % 64, 128 + n % 64]

/-- UTF-8 encoding of a character sequence, as a byte list. -/
def utf8Encode (s : List Char) : List Nat := s.flatMap utf8Char

/-- The standard base64 alphabet. -/
def b64Chars : List Char :=
  "ABCDEFGHIJKLMNOPQRSTUVWXYZabcdefghijklmnopqrstuvwxyz0123456789+/".data

/-- Character of one 6-bit group. -/
def b64Char (n : Nat) : Char := b64Chars.getD n 'A'

/-- `base64.b64encode`: 3 bytes to 4 characters, `=`-padded. -/
def b64encodeBytes : List Nat → List Char
  | [] => []
  | [a] => [b64Char (a / 4), b64Char (a % 4 * 16), '=', '=']
  | [a, b] => [b64Char (a / 4), b64Char (a % 4 * 16 + b / 16), b64Char (b % 16 * 4), '=']
  | a :: b :: c :: rest =>
    b64Char (a / 4) :: b64Char (a % 4 * 16 + b / 16) ::
      b64Char (b % 16 * 4 + c / 64) :: b64Char (c % 64) :: b64encodeBytes rest

/-- Index of a character in the base64 alphabet. -/
def b64Index (c : Char) : Option Nat := b64Chars.findIdx? (· == c)

/-- Decode filtered base64 text in groups of four characters.  `=` is
only accepted as final padding; a leftover group of one to three
characters is the "incorrect padding" error of `binascii`. -/
def b64decodeGroups : List Char → Option (List Nat)
  | [] => some []
  | [a, b, '=', '='] =>
    match b64Index a, b64Index b with
    | some x, some y => some [x * 4 + y / 16]
    | _, _ => none
  | [a, b, c, '='] =>
    match b64Index a, b64Index b, b64Index c with
    | some x, some y, some z => some [x * 4 + y / 16, y % 16 * 16 + z / 4]
    | _, _, _ => none
  | a :: b :: c :: d :: rest =>
    match b64Index a, b64Index b, b64Index c, b64Index d with
    | some x, some y, some z, some w =>
      (b64decodeGroups rest).map
        (fun tail => (x * 4 + y / 16) :: (y % 16 * 16 + z / 4) :: (z % 4 * 64 + w) :: tail)
    | _, _, _, _ => none
  | _ => none

/-- `base64.b64decode` in its default (non-validating) mode: characters
outside the alphabet are discarded before the padding check, then the
remaining text must decode in groups of four; failure (`none`) models
the `binascii.Error` that `b64decode` raises on incorrect padding. -/
def b64decode (s : String) : Option (List Nat) :=
  b64decodeGroups (s.data.filter (fun c => (b64Index c).isSome || c == '='))

/-! ### SHA-256 (`hashlib.sha256`), implemented byte for byte -/

/-- Truncation to a 32-bit word. -/
def w32 (n : Nat) : Nat := n % 4294967296

/-- Bitwise complement on 32-bit words. -/
def not32 (x : Nat) : Nat := 4294967295 - x

/-- Right rotation of a 32-bit word. -/
def rotr32 (x n : Nat) : Nat := x / 2 ^ n + x % 2 ^ n * 2 ^ (32 - n)

/-- SHA-256 choice function. -/
def shaCh (x y z : Nat) : Nat := (x &&& y) ^^^ (not32 x &&& z)

/-- SHA-256 majority function. -/
def shaMaj (x y z : Nat) : Nat := (x &&& y) ^^^ (x &&& z) ^^^ (y &&& z)

/-- SHA-256 Σ₀. -/
def bSig0 (x : Nat) : Nat := rotr32 x 2 ^^^ rotr32 x 13 ^^^ rotr32 x 22

/-- SHA-256 Σ₁. -/
def bSig1 (x : Nat) : Nat := rotr32 x 6 ^^^ rotr32 x 11 ^^^ rotr32 x 25

/-- SHA-256 σ₀. -/
def sSig0 (x : Nat) : Nat := rotr32 x 7 ^^^ rotr32 x 18 ^^^ x / 2 ^ 3

/-- SHA-256 σ₁. -/
def sSig1 (x : Nat) : Nat := rotr32 x 17 ^^^ rotr32 x 19 ^^^ x / 2 ^ 10

/-- The 64 SHA-256 round constants: the first 32 bits of the fractional
parts of the cube roots of the first 64 primes. -/
def shaK : List Nat :=
  [1116352408, 1899447441, 3049323471, 3921009573, 961987163, 1508970993, 2453635748,
   2870763221, 3624381080, 310598401, 607225278, 1426881987, 1925078388, 2162078206,
   2614888103, 3248222580, 3835390401, 4022224774, 264347078, 604807628, 770255983,
   1249150122, 1555081692, 1996064986, 2554220882, 2821834349, 2952996808, 3210313671,
   3336571891, 3584528711, 113926993, 338241895, 666307205, 773529912, 1294757372,
   1396182291, 1695183700, 1986661051, 2177026350, 2456956037, 2730485921, 2820302411,
   3259730800, 3345764771, 3516065817, 3600352804, 4094571909, 275423344, 430227734,
   506948616, 659060556, 883997877, 958139571, 1322822218, 1537002063, 1747873779,
   1955562222, 2024104815, 2227730452, 2361852424, 2428436474, 2756734187, 3204031479,
   3329325298]

/-- The eight 32-bit working variables of the compression function. -/
structure Sha8 where
  a : Nat
  b : Nat
  c : Nat
  d : Nat
  e : Nat
  f : Nat
  g : Nat
  hh : Nat
deriving DecidableEq, Repr

/-- The SHA-256 initial hash value: the first 32 bits of the fractional
parts of the square roots of the first 8 primes. -/
def shaH0 : Sha8 :=
  ⟨1779033703, 3144134277, 1013904242, 2773480762, 1359893119, 2600822924, 528734635,
   1541459225⟩

/-- Big-endian 8-byte form of the message bit length. -/
def be64 (n : Nat) : List Nat :=
  [n / 2 ^ 56 % 256, n / 2 ^ 48 % 256, n / 2 ^ 40 % 256, n / 2 ^ 32 % 256,
   n / 2 ^ 24 % 256, n / 2 ^ 16 % 256, n / 2 ^ 8 % 256, n % 256]

/-- SHA-256 message padding: a `1` bit, zeros to 56 mod 64 bytes, then
the bit length, big endian. -/
def shaPad (msg : List Nat) : List Nat :=
  let l := msg.length
  let k := (120 - (l + 1) % 64) % 64
  msg ++ 128 :: List.replicate k 0 ++ be64 (8 * l)

/-- Big-endian 32-bit words of a block. -/
def toWords : List Nat → List Nat
  | b0 :: b1 :: b2 :: b3 :: rest =>
    (b0 * 2 ^ 24 + b1 * 2 ^ 16 + b2 * 2 ^ 8 + b3) :: toWords rest
  | _ => []

/-- Extend the 16-word block to the 64-word message schedule. -/
def extendSchedule : Nat → List Nat → List Nat
  | 0, w => w
  | n + 1, w =>
    let len := w.length
    let nw := w32 (sSig1 (w.getD (len - 2) 0) + w.getD (len - 7) 0 +
      sSig0 (w.getD (len - 15) 0) + w.getD (len - 16) 0)
    extendSchedule n (w ++ [nw])

/-- One round of the compression function (the pair is `(wᵢ, kᵢ)`). -/
def shaStep (s : Sha8) (wk : Nat × Nat) : Sha8 :=
  let t1 := w32 (s.hh + bSig1 s.e + shaCh s.e s.f s.g + wk.2 + wk.1)
  let t2 := w32 (bSig0 s.a + shaMaj s.a s.b s.c)
  ⟨w32 (t1 + t2), s.a, s.b, s.c, w32 (s.d + t1), s.e, s.f, s.g⟩

/-- Compress one 64-byte block into the running hash value. -/
def processBlock (s : Sha8) (block : List Nat) : Sha8 :=
  let ws := extendSchedule 48 (toWords block)
  let t := (ws.zip shaK).foldl shaStep s
  ⟨w32 (s.a + t.a), w32 (s.b + t.b), w32 (s.c + t.c), w32 (s.d + t.d),
   w32 (s.e + t.e), w32 (s.f + t.f), w32 (s.g + t.g), w32 (s.hh + t.hh)⟩

/-- Fuel-driven 64-byte chunking (each step consumes at least one
byte, so fuel `l.length` suffices). -/
def chunks64Aux : Nat → List Nat → List (List Nat)
  | 0, _ => []
  | _, [] => []
  | fuel + 1, c :: rest => (c :: rest.take 63) :: chunks64Aux fuel (rest.drop 63)

/-- Split the padded message into 64-byte blocks. -/
def chunks64 (l : List Nat) : List (List Nat) := chunks64Aux l.length l

/-- Big-endian bytes of one 32-bit word. -/
def be32 (n : Nat) : List Nat :=
  [n / 2 ^ 24 % 256, n / 2 ^ 16 % 256, n / 2 ^ 8 % 256, n % 256]

/-- `hashlib.sha256(msg).digest()`: the 32-byte SHA-256 digest. -/
def sha256 (msg : List Nat) : List Nat :=
  let s := (chunks64 (shaPad msg)).foldl processBlock shaH0
  be32 s.a ++ be32 s.b ++ be32 s.c ++ be32 s.d ++ be32 s.e ++ be32 s.f ++
    be32 s.g ++ be32 s.hh

/-! ### `crypto.py`: event hashing, signing and verification -/

/-- The canonical JSON of a dictionary `d` (signature already removed):
`json.dumps(d, sort_keys=True, separators=(',', ':'))`. -/
def canonicalJson (d : EventDict) : List Char :=
  printJson true (sortJson (JsonVal.obj d))

/-- `compute_event_hash(event_dict)`: SHA-256 of the canonical JSON of
the event without its `signature` field, base64-encoded
(`crypto.py:105`). -/
def compute_event_hash (event_dict : EventDict) : String :=
  let event_copy := dictPopSignature event_dict
  let canonical_json := canonicalJson event_copy
  String.mk (b64encodeBytes (sha256 (utf8Encode canonical_json)))

/-- `sign_event(event_dict, keypair)` (`crypto.py:123`): drop any
existing signature, sign the canonical JSON with the keypair (the
Ed25519 signing primitive, a deterministic function of the signed
bytes for a fixed key, is the parameter `sign`), and attach the
signature.  The input dictionary is copied, never mutated. -/
def sign_event (sign : List Nat → String) (event_dict : EventDict) : EventDict :=
  let event_copy := dictPopSignature event_dict
  let canonical_json := canonicalJson event_copy
  let signature := sign (utf8Encode canonical_json)
  dictSet event_copy "signature" (JsonVal.str signature)

/-- `verify_signature_with_public_key(data, signature, public_key_bytes)`
(`crypto.py:94`).  `Ed25519PublicKey.from_public_bytes` raises for a
key that is not exactly 32 bytes, `base64.b64decode` raises for
malformed base64, and `public_key.verify` raises `InvalidSignature`
when the cryptographic check fails (the parameter `edVerify` is that
check); every raise is caught and turned into `false`. -/
def verify_signature_with_public_key
    (edVerify : List Nat → List Nat → List Nat → Bool)
    (data : List Nat) (signature : String) (public_key_bytes : List Nat) : Bool :=
  if public_key_bytes.length ≠ 32 then false
  else
    match b64decode signature with
    | none => false
    | some signature_bytes => edVerify public_key_bytes data signature_bytes

/-- `verify_event_signature(event_dict, public_key_bytes)`
(`crypto.py:148`): reject a missing or falsy signature, then verify
the canonical JSON of the remaining fields; a non-string signature
makes `b64decode` raise, which the wrapper turns into `false`. -/
def verify_event_signature (edVerify : List Nat → List Nat → List Nat → Bool)
    (event_dict : EventDict) (public_key_bytes : List Nat) : Bool :=
  match lookupField event_dict "signature" with
  | none => false
  | some sig =>
    if !pyTruthy sig then false
    else
      match sig with
      | JsonVal.str s =>
        verify_signature_with_public_key edVerify
          (utf8Encode (canonicalJson (dictPopSignature event_dict))) s public_key_bytes
      | _ => false

/-- The filter predicate of `build_hash_chain`/`verify_hash_chain`:
`e.get('sender_id') == sender_id` (a Python comparison of the stored
value with a string). -/
def senderMatches (sender_id : String) (e : EventDict) : Bool :=
  match lookupField e "sender_id" with
  | some (JsonVal.str s) => s == sender_id
  | _ => false

/-- The sort key of `verify_hash_chain`:
`e.get('timestamp_ms', 0)` (events carry integer timestamps). -/
def tsOf (e : EventDict) : Int :=
  match lookupField e "timestamp_ms" with
  | some (JsonVal.num n) => n
  | _ => 0

/-- Timestamp order on event dictionaries. -/
def tsLe (a b : EventDict) : Prop := tsOf a ≤ tsOf b

instance : DecidableRel tsLe := fun a b => inferInstanceAs (Decidable (tsOf a ≤ tsOf b))

/-- The filtered, stably timestamp-sorted per-sender record list that
`verify_hash_chain` walks (`crypto.py:200`).  Python's `list.sort` is
stable; a stable sort's output is uniquely determined by the key order
and the input order, so the (stable) insertion sort models it
exactly. -/
def senderEventsSorted (events : List EventDict) (sender_id : String) : List EventDict :=
  List.insertionSort tsLe (events.filter (senderMatches sender_id))

/-- The verification loop of `verify_hash_chain` (`crypto.py:206`):
walk the sorted records carrying the hash of the previous record
(`none` before the first); the first record must have no
`prev_event_hash`, every later record's `prev_event_hash` must equal
the carried hash. -/
def verifyChainLoop (prev_hash : Option String) : List EventDict → Bool
  | [] => true
  | e :: rest =>
    let expected_prev_hash := pyGet e "prev_event_hash"
    match prev_hash with
    | none =>
      match expected_prev_hash with
      | some _ => false
      | none => verifyChainLoop (some (compute_event_hash e)) rest
    | some ph =>
      match expected_prev_hash with
      | some (JsonVal.str s) =>
        if s == ph then verifyChainLoop (some (compute_event_hash e)) rest else false
      | _ => false

/-- `verify_hash_chain(events, sender_id)` (`crypto.py:194`). -/
def verify_hash_chain (events : List EventDict) (sender_id : String) : Bool :=
  verifyChainLoop none (senderEventsSorted events sender_id)

/-! ### `events.py`: the `Event` model and its validators -/

/-- The `Event` pydantic model (`events.py:15`): nine fields, in
declaration order; `content` is an arbitrary JSON object. -/
structure BCEvent where
  event_id : String
  room_id : String
  timestamp_ms : Int
  sender_id : String
  type : String
  parent_event_id : Option String
  prev_event_hash : Option String
  signature : String
  content : List (String × JsonVal)

/-- Python `v.split('::')`: non-overlapping left-to-right splitting on
the two-character separator. -/
def splitOnColons : List Char → List (List Char)
  | [] => [[]]
  | ':' :: ':' :: rest => [] :: splitOnColons rest
  | c :: rest =>
    match splitOnColons rest with
    | [] => [[c]]
    | g :: gs => (c :: g) :: gs

/-- The `timestamp_ms` validator (`events.py:33`): positive, and not
more than one hour (3600000 ms) ahead of the validator's clock
`now_ms`. -/
def validate_timestamp (now_ms : Int) (v : Int) : Bool :=
  if v ≤ 0 then false
  else if v > now_ms + 3600000 then false
  else true

/-- The `event_id` validator (`events.py:44`): the id must contain
`::` and split into exactly three parts; the room segment is compared
with `room_id` only when `room_id` is already among the previously
validated fields (`values`), which the parameter
`room_id_in_values` reflects. -/
def validate_event_id (v : String) (room_id_in_values : Option String) : Bool :=
  let parts := splitOnColons v.data
  if parts.length == 1 then false
  else if parts.length != 3 then false
  else
    match room_id_in_values with
    | some r => parts.headD [] == r.data
    | none => true

/-- The closed event-type enumeration (`events.py:120`). -/
def validTypes : List String :=
  ["m.room.message", "m.room.member", "m.room.redaction", "m.room.edit",
   "m.room.reaction", "m.room.typing"]

/-- The `type` validator (`events.py:59`). -/
def validate_event_type (v : String) : Bool :=
  validTypes.any (fun t => t == v)

/-- Validation of one `Event` against the model, at clock `now_ms`:
pydantic runs field validators in field declaration order, and a v1
style validator's `values` only holds the previously validated fields.
`event_id` is declared before `room_id`, so when `validate_event_id`
runs, `room_id` is not yet in `values` and the room-segment check
inside it is inert — hence the `none` argument below. -/
def validate_event (now_ms : Int) (e : BCEvent) : Bool :=
  validate_event_id e.event_id none &&
    validate_timestamp now_ms e.timestamp_ms &&
    validate_event_type e.type

/-- An optional string field as JSON. -/
def optToJson : Option String → JsonVal
  | none => JsonVal.null
  | some s => JsonVal.str s

/-- The JSON object behind `model_dump_json`: all nine fields, in
declaration order, `None` serialized as `null`. -/
def eventToJsonVal (e : BCEvent) : JsonVal :=
  JsonVal.obj
    [("event_id", JsonVal.str e.event_id),
     ("room_id", JsonVal.str e.room_id),
     ("timestamp_ms", JsonVal.num e.timestamp_ms),
     ("sender_id", JsonVal.str e.sender_id),
     ("type", JsonVal.str e.type),
     ("parent_event_id", optToJson e.parent_event_id),
     ("prev_event_hash", optToJson e.prev_event_hash),
     ("signature", JsonVal.str e.signature),
     ("content", JsonVal.obj e.content)]

/-- `Event.to_jsonl_line` (`events.py:81`): the compact JSON of the
model (UTF-8, non-ASCII unescaped) plus a newline. -/
def to_jsonl_line (e : BCEvent) : List Char :=
  printJson false (eventToJsonVal e) ++ ['\n']

/-! ### A JSON parser (the `model_validate_json` boundary)

`Event.from_jsonl_line` strips the line and parses it back through
pydantic's JSON parser.  The parser below covers the grammar fragment
the serializer above emits (compact separators, integer numerics); it
is fuel-driven so that it evaluates by kernel reduction. -/

/-- ASCII decimal digit test. -/
def isDigitChar (c : Char) : Bool := 48 ≤ c.toNat && c.toNat ≤ 57

/-- Value of a hex digit character. -/
def hexVal (c : Char) : Option Nat :=
  if 48 ≤ c.toNat && c.toNat ≤ 57 then some (c.toNat - 48)
  else if 97 ≤ c.toNat && c.toNat ≤ 102 then some (c.toNat - 87)
  else if 65 ≤ c.toNat && c.toNat ≤ 70 then some (c.toNat - 55)
  else none

/-- Parse the body of a JSON string literal (after the opening quote),
returning the decoded characters and the input after the closing
quote; fuel-driven (each step decodes one character, so any fuel above
the decoded length suffices).  Escapes cover what the serializer emits
plus the standard `\/` and general `\uXXXX`. -/
def parseStringAux : Nat → List Char → Option (List Char × List Char)
  | 0, _ => none
  | fuel + 1, cs =>
    match cs with
    | [] => none
    | c :: rest =>
      if c = '"' then some ([], rest)
      else if c = '\\' then
        match rest with
        | [] => none
        | e :: rest2 =>
          if e = '"' then (parseStringAux fuel rest2).map (fun p => ('"' :: p.1, p.2))
          else if e = '\\' then (parseStringAux fuel rest2).map (fun p => ('\\' :: p.1, p.2))
          else if e = '/' then (parseStringAux fuel rest2).map (fun p => ('/' :: p.1, p.2))
          else if e = 'n' then (parseStringAux fuel rest2).map (fun p => ('\n' :: p.1, p.2))
          else if e = 't' then (parseStringAux fuel rest2).map (fun p => ('\t' :: p.1, p.2))
          else if e = 'r' then (parseStringAux fuel rest2).map (fun p => ('\r' :: p.1, p.2))
          else if e = 'b' then
            (parseStringAux fuel rest2).map (fun p => (Char.ofNat 8 :: p.1, p.2))
          else if e = 'f' then
            (parseStringAux fuel rest2).map (fun p => (Char.ofNat 12 :: p.1, p.2))
          else if e = 'u' then
            match rest2 with
            | h1 :: h2 :: h3 :: h4 :: rest3 =>
              match hexVal h1, hexVal h2, hexVal h3, hexVal h4 with
              | some a, some b, some c2, some d =>
                (parseStringAux fuel rest3).map
                  (fun p => (Char.ofNat (a * 4096 + b * 256 + c2 * 16 + d) :: p.1, p.2))
              | _, _, _, _ => none
            | _ => none
          else none
      else if c.toNat < 32 then none
      else (parseStringAux fuel rest).map (fun p => (c :: p.1, p.2))
termination_by structural fuel => fuel

/-- Parse a string-literal body; the fuel `length + 1` always
suffices. -/
def parseStringChars (cs : List Char) : Option (List Char × List Char) :=
  parseStringAux (cs.length + 1) cs

/-- Accumulate a run of decimal digits. -/
def parseDigitsAux (acc : Nat) : List Char → Nat × List Char
  | [] => (acc, [])
  | c :: rest =>
    if isDigitChar c then parseDigitsAux (10 * acc + (c.toNat - 48)) rest
    else (acc, c :: rest)

/-- Parse an integer JSON number token (optional minus sign, digits). -/
def parseIntToken : List Char → Option (Int × List Char)
  | [] => none
  | c :: rest =>
    if c = '-' then
      match rest with
      | c2 :: rest2 =>
        if isDigitChar c2 then
          let p := parseDigitsAux (c2.toNat - 48) rest2
          some (-(p.1 : Int), p.2)
        else none
      | [] => none
    else if isDigitChar c then
      let p := parseDigitsAux (c.toNat - 48) rest
      some ((p.1 : Int), p.2)
    else none

/-- Match an expected literal keyword tail. -/
def dropLit : List Char → List Char → Option (List Char)
  | [], cs => some cs
  | l :: ls, c :: cs => if c = l then dropLit ls cs else none
  | _ :: _, [] => none

mutual

/-- Parse one JSON value; `fuel` bounds the nesting work (any fuel of
at least the input length suffices). -/
def parseVal : Nat → List Char → Option (JsonVal × List Char)
  | 0, _ => none
  | fuel + 1, cs =>
    match cs with
    | [] => none
    | c :: rest =>
      if c = 'n' then (dropLit ['u', 'l', 'l'] rest).map (fun r => (JsonVal.null, r))
      else if c = 't' then (dropLit ['r', 'u', 'e'] rest).map (fun r => (JsonVal.bool true, r))
      else if c = 'f' then
        (dropLit ['a', 'l', 's', 'e'] rest).map (fun r => (JsonVal.bool false, r))
      else if c = '"' then
        (parseStringChars rest).map (fun p => (JsonVal.str (String.mk p.1), p.2))
      else if c = Char.ofNat 91 then
        match rest with
        | d :: rest2 =>
          if d = Char.ofNat 93 then some (JsonVal.arr [], rest2)
          else (parseArrElems fuel (d :: rest2)).map (fun p => (JsonVal.arr p.1, p.2))
        | [] => none
      else if c = Char.ofNat 123 then
        match rest with
        | d :: rest2 =>
          if d = Char.ofNat 125 then some (JsonVal.obj [], rest2)
          else (parseObjMembers fuel (d :: rest2)).map (fun p => (JsonVal.obj p.1, p.2))
        | [] => none
      else (parseIntToken (c :: rest)).map (fun p => (JsonVal.num p.1, p.2))
termination_by structural fuel => fuel

/-- Parse a non-empty comma-separated element list up to `]`. -/
def parseArrElems : Nat → List Char → Option (List JsonVal × List Char)
  | 0, _ => none
  | fuel + 1, cs =>
    (parseVal fuel cs).bind (fun p =>
      match p.2 with
      | c2 :: rest =>
        if c2 = ',' then (parseArrElems fuel rest).map (fun q => (p.1 :: q.1, q.2))
        else if c2 = Char.ofNat 93 then some ([p.1], rest)
        else none
      | [] => none)
termination_by structural fuel => fuel

/-- Parse a non-empty comma-separated member list up to the closing
object brace. -/
def parseObjMembers : Nat → List Char → Option (List (String × JsonVal) × List Char)
  | 0, _ => none
  | fuel + 1, cs =>
    match cs with
    | c :: rest =>
      if c = '"' then
        (parseStringChars rest).bind (fun kp =>
          match kp.2 with
          | c2 :: rest2 =>
            if c2 = ':' then
              (parseVal fuel rest2).bind (fun vp =>
                match vp.2 with
                | c3 :: rest3 =>
                  if c3 = ',' then
                    (parseObjMembers fuel rest3).map
                      (fun q => ((String.mk kp.1, vp.1) :: q.1, q.2))
                  else if c3 = Char.ofNat 125 then some ([(String.mk kp.1, vp.1)], rest3)
                  else none
                | [] => none)
            else none
          | [] => none)
      else none
    | [] => none
termination_by structural fuel => fuel

end

/-- Extract an optional string field (`Optional[str]`): JSON `null` is
`None`, a JSON string is the string. -/
def optFromJson : JsonVal → Option (Option String)
  | JsonVal.null => some none
  | JsonVal.str s => some (some s)
  | _ => none

/-- `Event.model_validate` on a parsed JSON value, shape checking
only: the nine fields must be present with their declared types
(extra keys are ignored, as pydantic does by default). -/
def jsonValToEvent (v : JsonVal) : Option BCEvent :=
  match v with
  | JsonVal.obj kvs =>
    match lookupField kvs "event_id", lookupField kvs "room_id",
        lookupField kvs "timestamp_ms", lookupField kvs "sender_id",
        lookupField kvs "type", lookupField kvs "parent_event_id",
        lookupField kvs "prev_event_hash", lookupField kvs "signature",
        lookupField kvs "content" with
    | some (JsonVal.str eid), some (JsonVal.str rid), some (JsonVal.num ts),
        some (JsonVal.str sender), some (JsonVal.str ty), some pe, some ph,
        some (JsonVal.str sig), some (JsonVal.obj content) =>
      (optFromJson pe).bind (fun pe2 =>
        (optFromJson ph).bind (fun ph2 =>
          some ⟨eid, rid, ts, sender, ty, pe2, ph2, sig, content⟩))
    | _, _, _, _, _, _, _, _, _ => none
  | _ => none

/-- Python's default whitespace set for `str.strip()` (ASCII part). -/
def isPyWs (c : Char) : Bool :=
  c = ' ' || c = '\t' || c = '\n' || c = '\r' || c = Char.ofNat 11 || c = Char.ofNat 12

/-- `line.strip()`. -/
def pyStrip (l : List Char) : List Char :=
  ((l.dropWhile isPyWs).reverse.dropWhile isPyWs).reverse

/-- `Event.from_jsonl_line` (`events.py:85`):
`model_validate_json(line.strip())` — strip, parse the JSON, check the
shape, and run the model validators at clock `now_ms`. -/
def from_jsonl_line (now_ms : Int) (line : List Char) : Option BCEvent :=
  let s := pyStrip line
  match parseVal (s.length + 1) s with
  | some (v, []) =>
    (jsonValToEvent v).bind (fun e =>
      if validate_event now_ms e then some e else none)
  | _ => none

/-! ### `storage.py`: addressing and room creation -/

/-- ASCII test for Python's `c.isalnum()` (the protocol's identifiers
are ASCII; Python's full test also accepts non-ASCII letters and
digits, which none of the claims involve). -/
def isAsciiAlnum (c : Char) : Bool :=
  (48 ≤ c.toNat && c.toNat ≤ 57) || (65 ≤ c.toNat && c.toNat ≤ 90) ||
    (97 ≤ c.toNat && c.toNat ≤ 122)

/-- `generate_client_id(user_id)` (`storage.py:373`): drop an email
domain (everything from the first `@`), then keep only alphanumeric
characters and underscores. -/
def generate_client_id (user_id : String) : String :=
  let client_id :=
    if user_id.data.any (fun c => c == '@') then user_id.data.takeWhile (fun c => c != '@')
    else user_id.data
  String.mk (client_id.filter (fun c => isAsciiAlnum c || c == '_'))

/-- Decimal string of an integer (`f"{start_ts}"`). -/
def intStr (i : Int) : String := String.mk (intChars i)

/-- `UnifiedStorage.get_daily_log_path` (`storage.py:191`):
`<base>/rooms/<room_id>/logs/<date_str>/messages_<start>_<end>_<client>.jsonl`. -/
def get_daily_log_path (base room_id date_str : String) (start_ts end_ts : Int)
    (client_id : String) : String :=
  let filename := "messages_" ++ intStr start_ts ++ "_" ++ intStr end_ts ++ "_" ++
    client_id ++ ".jsonl"
  base ++ "/rooms/" ++ room_id ++ "/logs/" ++ date_str ++ "/" ++ filename

/-- The metadata object `ensure_room_structure` writes
(`storage.py:84`). -/
def roomMetadata (room_id now_iso : String) : JsonVal :=
  JsonVal.obj
    [("room_id", JsonVal.str room_id),
     ("created_at", JsonVal.str now_iso),
     ("version", JsonVal.str "1.0"),
     ("protocol", JsonVal.str "bucket-chat-v1")]

/-- The storage backend state, as a map from paths to stored JSON
documents (directory creation with `exist_ok=True` never changes file
contents and is not modelled). -/
abbrev FileStore := String → Option JsonVal

/-- `UnifiedStorage.ensure_room_structure(room_id)` (`storage.py:66`)
at clock `now_iso`: create `metadata.json` only when it does not
already exist (`file_exists` then `write_json`). -/
def ensure_room_structure (base now_iso room_id : String) (fs : FileStore) : FileStore :=
  let metadata_path := base ++ "/rooms/" ++ room_id ++ "/metadata.json"
  match fs metadata_path with
  | some _ => fs
  | none => fun p => if p = metadata_path then some (roomMetadata room_id now_iso) else fs p

/-! ### A micro-heap for the mutation claim about `sign_event`

Python dictionaries are heap objects passed by reference.  To state
that `sign_event` does not mutate its argument, the heap is modelled
as a list of dictionary objects addressed by index, and `sign_event`'s
statements are replayed as heap operations: `event_dict.copy()`
allocates a fresh object, and both `pop` and the signature assignment
act on that fresh object only. -/

/-- `sign_event(event_dict, keypair)` as heap operations on the object
at reference `r`; returns the new heap and the reference of the
returned dictionary. -/
def sign_event_heap (sign : List Nat → String) (heap : List EventDict) (r : Nat) :
    List EventDict × Nat :=
  let d := heap.getD r []
  let r1 := heap.length
  let heap1 := heap ++ [d]
  let heap2 := heap1.set r1 (dictPopSignature (heap1.getD r1 []))
  let signature := sign (utf8Encode (canonicalJson (heap2.getD r1 [])))
  let heap3 := heap2.set r1 (dictSet (heap2.getD r1 []) "signature" (JsonVal.str signature))
  (heap3, r1)

/-! ### Auxiliary definitions used by the statements and proofs -/

/-- The chain-link relation of the specification: record `b`'s
`prev_hash` equals the record hash of its immediate predecessor
`a`. -/
def chainLink (a b : EventDict) : Prop :=
  pyGet b "prev_event_hash" = some (JsonVal.str (compute_event_hash a))

/-- The specification's description of a valid ordered chain: the
first record has no `prev_hash` (absent or `None`), and every
subsequent record is linked to its immediate predecessor; the empty
sequence is vacuously valid. -/
def specChainOk (l : List EventDict) : Prop :=
  (∀ e ∈ l.head?, pyGet e "prev_event_hash" = none) ∧ List.Chain' chainLink l

/-- No-duplicate test on a key list (Python dict keys are unique). -/
def keyStringsNodup : List String → Bool
  | [] => true
  | k :: rest => rest.all (fun k2 => k2 != k) && keyStringsNodup rest

mutual

/-- Well-formedness of a JSON value as the image of Python data: every
object, at every depth, has pairwise distinct keys. -/
def nodupKeysRec : JsonVal → Bool
  | JsonVal.arr xs => nodupListRec xs
  | JsonVal.obj kvs => keyStringsNodup (kvs.map (fun p => p.1)) && nodupKVsRec kvs
  | _ => true
termination_by structural v => v

/-- `nodupKeysRec` over array elements. -/
def nodupListRec : List JsonVal → Bool
  | [] => true
  | x :: rest => nodupKeysRec x && nodupListRec rest
termination_by structural l => l

/-- `nodupKeysRec` over object member values. -/
def nodupKVsRec : List (String × JsonVal) → Bool
  | [] => true
  | p :: rest => nodupKeysRec p.2 && nodupKVsRec rest
termination_by structural l => l

end

mutual

/-- Equality of JSON values as key-value maps: identical atoms,
pointwise equal arrays, and objects whose member lists agree up to
reordering (with values compared recursively).  This is the claim's
"equal as key-value maps regardless of field insertion order". -/
inductive EqMap : JsonVal → JsonVal → Prop where
  | null : EqMap JsonVal.null JsonVal.null
  | bool (b : Bool) : EqMap (JsonVal.bool b) (JsonVal.bool b)
  | num (n : Int) : EqMap (JsonVal.num n) (JsonVal.num n)
  | str (s : String) : EqMap (JsonVal.str s) (JsonVal.str s)
  | arr {xs ys : List JsonVal} :
      EqMapList xs ys → EqMap (JsonVal.arr xs) (JsonVal.arr ys)
  | obj {kvs1 mid kvs2 : List (String × JsonVal)} :
      EqMapKVs kvs1 mid → mid.Perm kvs2 →
      EqMap (JsonVal.obj kvs1) (JsonVal.obj kvs2)

/-- Pointwise `EqMap` on lists. -/
inductive EqMapList : List JsonVal → List JsonVal → Prop where
  | nil : EqMapList [] []
  | cons {x y : JsonVal} {xs ys : List JsonVal} :
      EqMap x y → EqMapList xs ys → EqMapList (x :: xs) (y :: ys)

/-- Pointwise `EqMap` on member lists: same keys in the same order,
values related by `EqMap`. -/
inductive EqMapKVs : List (String × JsonVal) → List (String × JsonVal) → Prop where
  | nil : EqMapKVs [] []
  | cons (k : String) {v w : JsonVal} {r s : List (String × JsonVal)} :
      EqMap v w → EqMapKVs r s → EqMapKVs ((k, v) :: r) ((k, w) :: s)

end

mutual

/-- Fuel requirement of the parser on a printed value (any fuel above
it parses the value back). -/
def jsize : JsonVal → Nat
  | JsonVal.arr xs => jsizeL xs + 1
  | JsonVal.obj kvs => jsizeKV kvs + 1
  | _ => 0
termination_by structural v => v

/-- Fuel requirement over array elements. -/
def jsizeL : List JsonVal → Nat
  | [] => 0
  | x :: rest => jsize x + jsizeL rest + 1
termination_by structural l => l

/-- Fuel requirement over object members. -/
def jsizeKV : List (String × JsonVal) → Nat
  | [] => 0
  | p :: rest => jsize p.2 + jsizeKV rest + 1
termination_by structural l => l

end

/-- The condition the chain walk imposes on the first record of the
remaining list, given the carried previous hash: no `prev_hash` before
the first record, the predecessor's hash afterwards. -/
def prevCondition : Option String → EventDict → Prop
  | none, e => pyGet e "prev_event_hash" = none
  | some ph, e => pyGet e "prev_event_hash" = some (JsonVal.str ph)

/-- A record for the order-independence counterexample: sender `alice`
at timestamp 1000, no `prev_event_hash`. -/
def permEventA : EventDict :=
  [("sender_id", JsonVal.str "alice"), ("timestamp_ms", JsonVal.num 1000)]

/-- A second record of the same sender at the same timestamp, linked
to `permEventA`. -/
def permEventB : EventDict :=
  permEventA ++ [("prev_event_hash", JsonVal.str (compute_event_hash permEventA))]

/-- First record of a concrete three-record chain of sender `alice`
(timestamp 1, no `prev_event_hash`). -/
def chainEvent1 : EventDict :=
  [("sender_id", JsonVal.str "alice"), ("timestamp_ms", JsonVal.num 1)]

/-- Second record (timestamp 2), linked to the first. -/
def chainEvent2 : EventDict :=
  [("sender_id", JsonVal.str "alice"), ("timestamp_ms", JsonVal.num 2),
   ("prev_event_hash", JsonVal.str (compute_event_hash chainEvent1))]

/-- Third record (timestamp 3), linked to the second. -/
def chainEvent3 : EventDict :=
  [("sender_id", JsonVal.str "alice"), ("timestamp_ms", JsonVal.num 3),
   ("prev_event_hash", JsonVal.str (compute_event_hash chainEvent2))]

/-! ## Helper lemmas -/

theorem string_eq_of_data (s t : String) (h : s.data = t.data) : s = t := by
  cases s
  cases t
  exact congrArg String.mk h

theorem set_append_len {α : Type} (l : List α) (a b : α) :
    (l ++ [a]).set l.length b = l ++ [b] := by
  induction l with
  | nil => rfl
  | cons x xs ih => simp [List.set, ih]

theorem getD_append_len {α : Type} (l : List α) (a d : α) :
    (l ++ [a]).getD l.length d = a := by
  induction l with
  | nil => rfl
  | cons x xs ih => simp only [List.cons_append, List.length_cons, List.getD_cons_succ]; exact ih

/-! ## C9 — idempotent room creation -/

/-- C9: room creation is idempotent: a second `ensure_room_structure`
call (even at a later clock `now2`) leaves the store unchanged, an
existing metadata file is never overwritten, and a first call on a
store without the metadata file creates exactly the metadata object at
`rooms/<room_id>/metadata.json`. -/
theorem ensure_room_structure_idempotent (base now1 now2 room_id : String) (fs : FileStore) :
    ensure_room_structure base now2 room_id (ensure_room_structure base now1 room_id fs) =
      ensure_room_structure base now1 room_id fs ∧
    (∀ v : JsonVal, fs (base ++ "/rooms/" ++ room_id ++ "/metadata.json") = some v →
      ensure_room_structure base now1 room_id fs = fs) ∧
    (fs (base ++ "/rooms/" ++ room_id ++ "/metadata.json") = none →
      ensure_room_structure base now1 room_id fs
          (base ++ "/rooms/" ++ room_id ++ "/metadata.json") =
        some (roomMetadata room_id now1)) := by
  unfold ensure_room_structure
  cases h : fs (base ++ "/rooms/" ++ room_id ++ "/metadata.json") with
  | some v => simp [h]
  | none => simp [h]

/-- Witness for C9 at concrete stores: an empty store, and a store
that already holds a metadata document. -/
theorem ensure_room_structure_idempotent_witness :
    ensure_room_structure "b" "t2" "r" (ensure_room_structure "b" "t1" "r" (fun _ => none)) =
      ensure_room_structure "b" "t1" "r" (fun _ => none) ∧
    ensure_room_structure "b" "t1" "r" (fun _ => some JsonVal.null) = (fun _ => some JsonVal.null) ∧
    ensure_room_structure "b" "t1" "r" (fun _ => none) "b/rooms/r/metadata.json" =
      some (roomMetadata "r" "t1") := by
  refine ⟨(ensure_room_structure_idempotent "b" "t1" "t2" "r" (fun _ => none)).1,
    (ensure_room_structure_idempotent "b" "t1" "t2" "r" (fun _ => some JsonVal.null)).2.1
      JsonVal.null rfl, ?_⟩
  have h := (ensure_room_structure_idempotent "b" "t1" "t2" "r" (fun _ => none)).2.2 rfl
  simp only [] at h
  exact h

/-! ## C8 — segment filename uniqueness -/

/-- Counterexample for C8: two distinct writer identities,
`alice@a.com` and `alice@b.com`, produce the same client id `alice`
and hence the same segment path for identical
`(room, day, start, end)` coordinates. -/
theorem daily_log_path_identity_collision :
    generate_client_id "alice@a.com" = "alice" ∧
    generate_client_id "alice@b.com" = "alice" ∧
    "alice@a.com" ≠ "alice@b.com" ∧
    get_daily_log_path "base" "room" "2025-01-01" 1 2 (generate_client_id "alice@a.com") =
      get_daily_log_path "base" "room" "2025-01-01" 1 2 (generate_client_id "alice@b.com") := by
  refine ⟨by decide, by decide, by decide, ?_⟩
  decide

/-- C8 (amended): the segment path is a deterministic function of
`(base, room, day, start, end, client_id)` — injectivity holds in the
derived `client_id` (distinct client ids never produce the same
path for fixed coordinates), but not across writer identities, since
`generate_client_id` can map distinct identities to one client id. -/
theorem daily_log_path_injective_in_client_id (base room date : String) (s e : Int)
    (c1 c2 : String) (h : c1 ≠ c2) :
    get_daily_log_path base room date s e c1 ≠ get_daily_log_path base room date s e c2 := by
  intro heq
  apply h
  unfold get_daily_log_path at heq
  have h2 := congrArg String.data heq
  simp only [String.data_append, List.append_assoc] at h2
  have h3 := List.append_cancel_left h2
  have h4 := List.append_cancel_left h3
  have h5 := List.append_cancel_left h4
  have h6 := List.append_cancel_left h5
  have h7 := List.append_cancel_left h6
  have h8 := List.append_cancel_left h7
  have h9 := List.append_cancel_left h8
  have h10 := List.append_cancel_left h9
  have h11 := List.append_cancel_left h10
  have h12 := List.append_cancel_left h11
  have h13 := List.append_cancel_left h12
  exact string_eq_of_data c1 c2 (List.append_cancel_right h13)

/-- Witness for C8's amended statement at concrete client ids. -/
theorem daily_log_path_injective_in_client_id_witness :
    ("alice" : String) ≠ "bob" ∧
    get_daily_log_path "b" "r" "2025-01-01" 1 2 "alice" ≠
      get_daily_log_path "b" "r" "2025-01-01" 1 2 "bob" :=
  ⟨by decide, daily_log_path_injective_in_client_id "b" "r" "2025-01-01" 1 2 "alice" "bob"
    (by decide)⟩

/-! ## C6 — event validation -/

/-- C6 (code evidence): the timestamp bounds, the three-part id check
and the closed kind enumeration all behave as the claim says, but the
room-segment cross-check never fires: an event whose id starts with
`roomA` while `room_id` is `roomB` passes validation, because pydantic
validates fields in declaration order and `room_id` is not yet among
the validated `values` when the `event_id` validator runs. -/
theorem validate_event_accepts_room_mismatch :
    validate_event 1000000000
      ⟨"roomA::2025-01-01T00:00:00Z::u1", "roomB", 1000, "alice", "m.room.message",
        none, none, "sig", []⟩ = true ∧
    (splitOnColons "roomA::2025-01-01T00:00:00Z::u1".data).headD [] ≠ "roomB".data ∧
    validate_timestamp 1000000000 (1000000000 + 1800000) = true ∧
    validate_timestamp 1000000000 (1000000000 + 7200000) = false ∧
    validate_timestamp 1000000000 0 = false ∧
    validate_event_id "room::onlytwo" none = false ∧
    validate_event_type "m.room.bogus" = false := by
  decide

/-! ## C5 — signature verification never throws -/

/-- C5: `verify_signature_with_public_key` returns `false` (it never
propagates an error) for undecodable base64 signatures, for public
keys that are not exactly 32 bytes, and whenever the cryptographic
check itself rejects; `verify_event_signature` additionally returns
`false` when the record's `signature` field is absent or empty. -/
theorem verify_signature_never_throws
    (edVerify : List Nat → List Nat → List Nat → Bool)
    (data : List Nat) (signature : String) (public_key_bytes : List Nat) (e : EventDict) :
    (b64decode signature = none →
      verify_signature_with_public_key edVerify data signature public_key_bytes = false) ∧
    (public_key_bytes.length ≠ 32 →
      verify_signature_with_public_key edVerify data signature public_key_bytes = false) ∧
    (∀ sb, b64decode signature = some sb → edVerify public_key_bytes data sb = false →
      verify_signature_with_public_key edVerify data signature public_key_bytes = false) ∧
    (lookupField e "signature" = none →
      verify_event_signature edVerify e public_key_bytes = false) ∧
    (lookupField e "signature" = some (JsonVal.str "") →
      verify_event_signature edVerify e public_key_bytes = false) := by
  refine ⟨?_, ?_, ?_, ?_, ?_⟩
  · intro h
    simp [verify_signature_with_public_key, h]
  · intro h
    simp [verify_signature_with_public_key, h]
  · intro sb h1 h2
    simp [verify_signature_with_public_key, h1, h2]
  · intro h
    simp [verify_event_signature, h]
  · intro h
    simp [verify_event_signature, h, pyTruthy]

/-- Witness for C5 at concrete inputs: `"a"` is undecodable base64
(one leftover character), `[0]` is a wrong-length key, a rejecting
cryptographic check yields `false`, and records with a missing or
empty signature are rejected. -/
theorem verify_signature_never_throws_witness :
    b64decode "a" = none ∧
    verify_signature_with_public_key (fun _ _ _ => true) [1] "a" (List.replicate 32 0) = false ∧
    verify_signature_with_public_key (fun _ _ _ => true) [1] "TWFu" [0] = false ∧
    b64decode "TWFu" = some [77, 97, 110] ∧
    verify_signature_with_public_key (fun _ _ _ => false) [1] "TWFu"
      (List.replicate 32 0) = false ∧
    verify_event_signature (fun _ _ _ => true) [] (List.replicate 32 0) = false ∧
    verify_event_signature (fun _ _ _ => true) [("signature", JsonVal.str "")]
      (List.replicate 32 0) = false := by
  refine ⟨by decide,
    (verify_signature_never_throws (fun _ _ _ => true) [1] "a" (List.replicate 32 0) []).1
      (by decide),
    (verify_signature_never_throws (fun _ _ _ => true) [1] "TWFu" [0] []).2.1 (by decide),
    by decide,
    (verify_signature_never_throws (fun _ _ _ => false) [1] "TWFu"
      (List.replicate 32 0) []).2.2.1 [77, 97, 110] (by decide) rfl,
    (verify_signature_never_throws (fun _ _ _ => true) [1] "x" (List.replicate 32 0) []).2.2.2.1
      rfl,
    (verify_signature_never_throws (fun _ _ _ => true) [1] "x" (List.replicate 32 0)
      [("signature", JsonVal.str "")]).2.2.2.2 rfl⟩

/-! ## C10 — `sign_event` does not mutate its input -/

theorem lookupField_cons (p : String × JsonVal) (rest : EventDict) (k : String) :
    lookupField (p :: rest) k = if p.1 == k then some p.2 else lookupField rest k := by
  by_cases h : p.1 == k
  · simp [lookupField, List.find?_cons, h]
  · simp only [Bool.not_eq_true] at h
    simp [lookupField, List.find?_cons, h]

theorem lookupField_pop (d : EventDict) (k : String) (hk : k ≠ "signature") :
    lookupField (dictPopSignature d) k = lookupField d k := by
  induction d with
  | nil => rfl
  | cons p rest ih =>
    by_cases hp : p.1 = "signature"
    · have hpk : (p.1 == k) = false := by
        refine beq_eq_false_iff_ne.mpr ?_
        intro hh
        exact hk (hh ▸ hp)
      rw [lookupField_cons, if_neg (by simp [hpk])]
      have hf : (p.1 != "signature") = false := by simp [hp]
      simp only [dictPopSignature, List.filter_cons, hf]
      exact ih
    · have hf : (p.1 != "signature") = true := by simp [hp]
      simp only [dictPopSignature, List.filter_cons, hf, if_true]
      rw [lookupField_cons, lookupField_cons]
      cases hpk : (p.1 == k) with
      | true => simp [hpk]
      | false =>
        simp only [hpk, Bool.false_eq_true, if_neg, not_false_eq_true]
        exact ih

theorem pop_has_no_signature (d : EventDict) :
    (dictPopSignature d).any (fun p => p.1 == "signature") = false := by
  induction d with
  | nil => rfl
  | cons p rest ih =>
    by_cases hp : p.1 = "signature"
    · have hf : (p.1 != "signature") = false := by simp [hp]
      simp only [dictPopSignature, List.filter_cons, hf]
      exact ih
    · have hf : (p.1 != "signature") = true := by simp [hp]
      simp only [dictPopSignature, List.filter_cons, hf, if_true, List.any_cons,
        Bool.or_eq_false_iff]
      exact ⟨by simp [hp], ih⟩

theorem lookupField_append_key (l : EventDict) (k : String) (v : JsonVal)
    (h : l.any (fun p => p.1 == k) = false) :
    lookupField (l ++ [(k, v)]) k = some v := by
  induction l with
  | nil => simp [lookupField, List.find?]
  | cons p rest ih =>
    simp only [List.any_cons, Bool.or_eq_false_iff] at h
    simp only [List.cons_append]
    rw [lookupField_cons]
    simp [h.1, ih h.2]

theorem lookupField_append_ne (l : EventDict) (k k2 : String) (v : JsonVal) (h : k2 ≠ k) :
    lookupField (l ++ [(k, v)]) k2 = lookupField l k2 := by
  induction l with
  | nil =>
    have : (k == k2) = false := by
      simp only [beq_eq_false_iff_ne, ne_eq]
      exact fun hh => h hh.symm
    simp [lookupField, List.find?, this]
  | cons p rest ih =>
    simp only [List.cons_append]
    rw [lookupField_cons, lookupField_cons, ih]

/-- C10: replaying `sign_event` as heap operations: the heap object
passed in (and every other pre-existing object) is bit-for-bit
unchanged, the returned reference is a fresh object, and that object
holds exactly the input's non-signature fields plus the newly computed
`signature` field. -/
theorem sign_event_heap_no_mutation (sign : List Nat → String) (heap : List EventDict)
    (r : Nat) (_hr : r < heap.length) :
    (∀ i, i < heap.length →
      (sign_event_heap sign heap r).1.getD i [] = heap.getD i []) ∧
    (sign_event_heap sign heap r).2 = heap.length ∧
    (sign_event_heap sign heap r).1.getD (sign_event_heap sign heap r).2 [] =
      sign_event sign (heap.getD r []) ∧
    (∀ k, k ≠ "signature" →
      lookupField ((sign_event_heap sign heap r).1.getD (sign_event_heap sign heap r).2 []) k =
        lookupField (heap.getD r []) k) ∧
    lookupField ((sign_event_heap sign heap r).1.getD (sign_event_heap sign heap r).2 [])
        "signature" =
      some (JsonVal.str (sign (utf8Encode (canonicalJson (dictPopSignature (heap.getD r [])))))) := by
  have hstep : sign_event_heap sign heap r =
      (heap ++ [sign_event sign (heap.getD r [])], heap.length) := by
    simp only [sign_event_heap, getD_append_len, set_append_len]
    rfl
  rw [hstep]
  have hres : (heap ++ [sign_event sign (heap.getD r [])],
      heap.length).1.getD (heap ++ [sign_event sign (heap.getD r [])], heap.length).2 [] =
      sign_event sign (heap.getD r []) := getD_append_len heap _ []
  have hset : sign_event sign (heap.getD r []) =
      dictPopSignature (heap.getD r []) ++
        [("signature",
          JsonVal.str (sign (utf8Encode (canonicalJson (dictPopSignature (heap.getD r []))))))] := by
    simp [sign_event, dictSet, pop_has_no_signature]
  refine ⟨fun i hi => List.getD_append _ _ _ _ hi, rfl, hres, ?_, ?_⟩
  · intro k hk
    rw [hres, hset, lookupField_append_ne _ _ _ _ hk, lookupField_pop _ _ hk]
  · rw [hres, hset, lookupField_append_key _ _ _ (pop_has_no_signature _)]

/-- Witness for C10 on a concrete heap holding one dictionary with a
stale signature. -/
theorem sign_event_heap_no_mutation_witness :
    (0 : Nat) < ([[("a", JsonVal.num 1), ("signature", JsonVal.str "old")]] :
      List EventDict).length ∧
    (sign_event_heap (fun _ => "NEW") [[("a", JsonVal.num 1), ("signature", JsonVal.str "old")]]
        0).1.getD 0 [] = [("a", JsonVal.num 1), ("signature", JsonVal.str "old")] :=
  ⟨by decide,
    (sign_event_heap_no_mutation (fun _ => "NEW")
      [[("a", JsonVal.num 1), ("signature", JsonVal.str "old")]] 0 (by decide)).1 0 (by decide)⟩

/-! ## C2 — `verify_hash_chain` against its specification -/

theorem verifyChainLoop_iff (l : List EventDict) : ∀ prev,
    verifyChainLoop prev l = true ↔
      ((∀ e ∈ l.head?, prevCondition prev e) ∧ List.Chain' chainLink l) := by
  induction l with
  | nil =>
    intro prev
    simp [verifyChainLoop]
  | cons e rest ih =>
    intro prev
    rw [List.chain'_cons']
    cases prev with
    | none =>
      cases hpg : pyGet e "prev_event_hash" with
      | some v =>
        simp only [verifyChainLoop, hpg]
        simp [prevCondition, hpg]
      | none =>
        have hstep : verifyChainLoop none (e :: rest) =
            verifyChainLoop (some (compute_event_hash e)) rest := by
          simp [verifyChainLoop, hpg]
        rw [hstep, ih (some (compute_event_hash e))]
        constructor
        · rintro ⟨h1, h2⟩
          exact ⟨by simp [prevCondition, hpg], fun y hy => h1 y hy, h2⟩
        · rintro ⟨_, h2, h3⟩
          exact ⟨fun y hy => h2 y hy, h3⟩
    | some ph =>
      cases hpg : pyGet e "prev_event_hash" with
      | none =>
        simp only [verifyChainLoop, hpg]
        simp [prevCondition, hpg]
      | some v =>
        cases v with
        | str s =>
          cases hs : (s == ph) with
          | true =>
            have hseq : s = ph := by simpa using hs
            have hstep : verifyChainLoop (some ph) (e :: rest) =
                verifyChainLoop (some (compute_event_hash e)) rest := by
              simp [verifyChainLoop, hpg, hs]
            rw [hstep, ih (some (compute_event_hash e))]
            constructor
            · rintro ⟨h1, h2⟩
              exact ⟨by simp [prevCondition, hpg, hseq], fun y hy => h1 y hy, h2⟩
            · rintro ⟨_, h2, h3⟩
              exact ⟨fun y hy => h2 y hy, h3⟩
          | false =>
            have hsne : s ≠ ph := by simpa using hs
            simp only [verifyChainLoop, hpg, hs]
            simp [prevCondition, hpg, hsne]
        | null =>
          simp only [verifyChainLoop, hpg]
          simp [prevCondition, hpg]
        | bool b =>
          simp only [verifyChainLoop, hpg]
          simp [prevCondition, hpg]
        | num n =>
          simp only [verifyChainLoop, hpg]
          simp [prevCondition, hpg]
        | arr xs =>
          simp only [verifyChainLoop, hpg]
          simp [prevCondition, hpg]
        | obj kvs =>
          simp only [verifyChainLoop, hpg]
          simp [prevCondition, hpg]

/-- C2: `verify_hash_chain` returns `true` exactly when, on the
timestamp-sorted records of the given sender, the first record has no
`prev_hash` (absent or `None`) and every subsequent record's
`prev_hash` equals the record hash of its immediate predecessor; any
mismatch makes the whole call return `false`, and an empty input (or
one with no records of the sender) is vacuously valid. -/
theorem verify_hash_chain_spec (events : List EventDict) (sender_id : String) :
    (verify_hash_chain events sender_id = true ↔
      specChainOk (senderEventsSorted events sender_id)) ∧
    verify_hash_chain [] sender_id = true ∧
    (events.filter (senderMatches sender_id) = [] →
      verify_hash_chain events sender_id = true) := by
  refine ⟨?_, rfl, ?_⟩
  · rw [verify_hash_chain, verifyChainLoop_iff]
    exact Iff.rfl
  · intro h
    rw [verify_hash_chain, senderEventsSorted, h]
    rfl

/-- Witness for C2: a list with no record of the queried sender is
vacuously valid, and so is the empty list. -/
theorem verify_hash_chain_spec_witness :
    verify_hash_chain [[("sender_id", JsonVal.str "bob")]] "alice" = true ∧
    verify_hash_chain [] "alice" = true :=
  ⟨(verify_hash_chain_spec [[("sender_id", JsonVal.str "bob")]] "alice").2.2 rfl,
   (verify_hash_chain_spec [] "alice").2.1⟩

/-! ## C4 — dependence of `verify_hash_chain` on input order -/

theorem char_eq_of_toNat_eq (a b : Char) (h : a.toNat = b.toNat) : a = b := by
  cases a with
  | mk v hv =>
    cases b with
    | mk w hw =>
      have hvw : v = w := UInt32.ext h
      subst hvw
      rfl

theorem charListLe_total (a b : List Char) :
    charListLe a b = true ∨ charListLe b a = true := by
  induction a generalizing b with
  | nil => left; rfl
  | cons x xs ih =>
    cases b with
    | nil => right; rfl
    | cons y ys =>
      rcases Nat.lt_trichotomy x.toNat y.toNat with h | h | h
      · left; simp [charListLe, h]
      · rcases ih ys with h2 | h2
        · left; simp [charListLe, h, h2]
        · right; simp [charListLe, h.symm, h2]
      · right; simp [charListLe, h]

theorem charListLe_antisymm (a b : List Char) (h1 : charListLe a b = true)
    (h2 : charListLe b a = true) : a = b := by
  induction a generalizing b with
  | nil =>
    cases b with
    | nil => rfl
    | cons y ys => simp [charListLe] at h2
  | cons x xs ih =>
    cases b with
    | nil => simp [charListLe] at h1
    | cons y ys =>
      rcases Nat.lt_trichotomy x.toNat y.toNat with h | h | h
      · simp [charListLe, h, Nat.lt_asymm h] at h2
      · rw [char_eq_of_toNat_eq x y h]
        rw [charListLe, if_neg (by omega), if_neg (by omega)] at h1 h2
        rw [ih ys h1 h2]
      · simp [charListLe, h, Nat.lt_asymm h] at h1

theorem charListLe_trans (a b c : List Char) (h1 : charListLe a b = true)
    (h2 : charListLe b c = true) : charListLe a c = true := by
  induction a generalizing b c with
  | nil => rfl
  | cons x xs ih =>
    cases b with
    | nil => simp [charListLe] at h1
    | cons y ys =>
      cases c with
      | nil => simp [charListLe] at h2
      | cons z zs =>
        rw [charListLe] at h1 h2 ⊢
        by_cases hxy : x.toNat < y.toNat
        · by_cases hyz : y.toNat < z.toNat
          · rw [if_pos (by omega)]
          · by_cases hzy : z.toNat < y.toNat
            · simp [hyz, hzy] at h2
            · have : y.toNat = z.toNat := by omega
              rw [if_pos (by omega)]
        · by_cases hyx : y.toNat < x.toNat
          · simp [hxy, hyx] at h1
          · have hxy2 : x.toNat = y.toNat := by omega
            by_cases hyz : y.toNat < z.toNat
            · rw [if_pos (by omega)]
            · by_cases hzy : z.toNat < y.toNat
              · simp [hyz, hzy] at h2
              · rw [if_neg (by omega), if_neg (by omega)]
                simp [hxy, hyx] at h1
                simp [hyz, hzy] at h2
                exact ih ys zs h1 h2

/-- Counterexample for C4: with two records of one sender sharing a
timestamp, the stable timestamp sort preserves the input order, so
permuting the input flips the verdict — `verify_hash_chain` is not
independent of the physical order of its input list. -/
theorem verify_hash_chain_not_perm_invariant :
    ¬ (∀ (events1 events2 : List EventDict) (sender_id : String), events1.Perm events2 →
        verify_hash_chain events1 sender_id = verify_hash_chain events2 sender_id) := by
  intro hcl
  have h := hcl [permEventA, permEventB] [permEventB, permEventA] "alice"
    (List.Perm.swap permEventB permEventA [])
  rw [show verify_hash_chain [permEventA, permEventB] "alice" = true from by decide,
    show verify_hash_chain [permEventB, permEventA] "alice" = false from by decide] at h
  exact absurd h (by simp)

/-- C4 (amended): `verify_hash_chain` is independent of the physical
order of its input whenever the sender's records have pairwise
distinct `timestamp_ms` values (the timestamp sort then has a unique
result).  With equal timestamps the stable sort preserves input
order, so order independence fails there (see the counterexample). -/
theorem verify_hash_chain_perm_invariant (events1 events2 : List EventDict)
    (sender_id : String) (hperm : events1.Perm events2)
    (hts : (events1.filter (senderMatches sender_id)).Pairwise
      (fun a b => tsOf a ≠ tsOf b)) :
    verify_hash_chain events1 sender_id = verify_hash_chain events2 sender_id := by
  haveI : IsTotal EventDict tsLe := ⟨fun a b => le_total (tsOf a) (tsOf b)⟩
  haveI : IsTrans EventDict tsLe := ⟨fun a b c hab hbc => le_trans hab hbc⟩
  haveI : IsAntisymm EventDict (fun a b : EventDict => tsOf a < tsOf b) :=
    ⟨fun a b h1 h2 => absurd h2 (not_lt.mpr (le_of_lt h1))⟩
  have hfp : (events1.filter (senderMatches sender_id)).Perm
      (events2.filter (senderMatches sender_id)) := hperm.filter _
  have hsym : ∀ {x y : EventDict}, tsOf x ≠ tsOf y → tsOf y ≠ tsOf x :=
    fun h => Ne.symm h
  have hp1 : (senderEventsSorted events1 sender_id).Perm
      (events1.filter (senderMatches sender_id)) := List.perm_insertionSort tsLe _
  have hp2 : (senderEventsSorted events2 sender_id).Perm
      (events2.filter (senderMatches sender_id)) := List.perm_insertionSort tsLe _
  have hp12 : (senderEventsSorted events1 sender_id).Perm
      (senderEventsSorted events2 sender_id) := hp1.trans (hfp.trans hp2.symm)
  have hne1 : (senderEventsSorted events1 sender_id).Pairwise
      (fun a b => tsOf a ≠ tsOf b) := (hp1.pairwise_iff hsym).mpr hts
  have hne2 : (senderEventsSorted events2 sender_id).Pairwise
      (fun a b => tsOf a ≠ tsOf b) :=
    (hp2.pairwise_iff hsym).mpr ((hfp.pairwise_iff hsym).mp hts)
  have hs1 : List.Sorted tsLe (senderEventsSorted events1 sender_id) :=
    List.sorted_insertionSort tsLe _
  have hs2 : List.Sorted tsLe (senderEventsSorted events2 sender_id) :=
    List.sorted_insertionSort tsLe _
  have hstrict1 : List.Sorted (fun a b : EventDict => tsOf a < tsOf b)
      (senderEventsSorted events1 sender_id) :=
    (hs1.and hne1).imp (fun h => lt_of_le_of_ne h.1 h.2)
  have hstrict2 : List.Sorted (fun a b : EventDict => tsOf a < tsOf b)
      (senderEventsSorted events2 sender_id) :=
    (hs2.and hne2).imp (fun h => lt_of_le_of_ne h.1 h.2)
  have heq : senderEventsSorted events1 sender_id = senderEventsSorted events2 sender_id :=
    List.eq_of_perm_of_sorted hp12 hstrict1 hstrict2
  rw [verify_hash_chain, verify_hash_chain, heq]

/-- Witness for the amended C4 at two concrete distinct-timestamp
records in swapped physical order. -/
theorem verify_hash_chain_perm_invariant_witness :
    verify_hash_chain
        [[("sender_id", JsonVal.str "a"), ("timestamp_ms", JsonVal.num 1)],
         [("sender_id", JsonVal.str "a"), ("timestamp_ms", JsonVal.num 2)]] "a" =
      verify_hash_chain
        [[("sender_id", JsonVal.str "a"), ("timestamp_ms", JsonVal.num 2)],
         [("sender_id", JsonVal.str "a"), ("timestamp_ms", JsonVal.num 1)]] "a" :=
  verify_hash_chain_perm_invariant _ _ "a"
    (List.Perm.swap _ _ [])
    (by decide)

/-! ## C3 — deletion detection -/

theorem verify_eq_loop (l : List EventDict) (sid : String)
    (hsender : ∀ e ∈ l, senderMatches sid e = true)
    (hts : l.Pairwise (fun a b => tsOf a < tsOf b)) :
    verify_hash_chain l sid = verifyChainLoop none l := by
  have hsorted : List.Sorted tsLe l := hts.imp (fun h => le_of_lt h)
  rw [verify_hash_chain, senderEventsSorted, List.filter_eq_self.mpr hsender,
    List.Sorted.insertionSort_eq hsorted]

/-- C3: a linked per-sender sequence with strictly increasing
timestamps (at least three records) passes `verify_hash_chain`, and
removing any middle record makes `verify_hash_chain` return `false`
(under the stated freedom from hash collisions between adjacent
records, which distinct SHA-256 inputs give in practice). -/
theorem verify_hash_chain_detects_deletion (L : List EventDict) (sender_id : String)
    (hsender : ∀ e ∈ L, senderMatches sender_id e = true)
    (hts : L.Pairwise (fun a b => tsOf a < tsOf b))
    (_hlen : 3 ≤ L.length)
    (hok : specChainOk L)
    (hdist : L.Chain' (fun a b => compute_event_hash a ≠ compute_event_hash b)) :
    verify_hash_chain L sender_id = true ∧
    (∀ A b C, L = A ++ b :: C → A ≠ [] → C ≠ [] →
      verify_hash_chain (A ++ C) sender_id = false) := by
  constructor
  · rw [verify_eq_loop L sender_id hsender hts]
    exact (verifyChainLoop_iff L none).mpr hok
  · intro A b C hL hA hC
    subst hL
    have hsub : (A ++ C).Sublist (A ++ b :: C) :=
      List.Sublist.append_left (List.sublist_cons_self b C) A
    have hsender2 : ∀ e ∈ A ++ C, senderMatches sender_id e = true :=
      fun e he => hsender e (hsub.mem he)
    have hts2 : (A ++ C).Pairwise (fun a b => tsOf a < tsOf b) := hts.sublist hsub
    rw [verify_eq_loop (A ++ C) sender_id hsender2 hts2]
    rw [Bool.eq_false_iff]
    intro htrue
    obtain ⟨-, hchain2⟩ := (verifyChainLoop_iff (A ++ C) none).mp htrue
    obtain ⟨la, hla⟩ := List.getLast?_isSome.mpr hA |> Option.isSome_iff_exists.mp
    obtain ⟨c0, C', rfl⟩ := List.exists_cons_of_ne_nil hC
    have hlink_removed : chainLink la c0 := by
      obtain ⟨-, -, hacross⟩ := List.chain'_append.mp hchain2
      exact hacross la hla c0 rfl
    have hlink_orig : chainLink b c0 := by
      obtain ⟨-, hbc, -⟩ := List.chain'_append.mp hok.2
      exact (List.chain'_cons'.mp hbc).1 c0 rfl
    have hhash_ne : compute_event_hash la ≠ compute_event_hash b := by
      obtain ⟨-, -, hacross⟩ := List.chain'_append.mp hdist
      exact hacross la hla b rfl
    apply hhash_ne
    have := hlink_removed.symm.trans hlink_orig
    injection this with h1
    injection h1

/-- Witness for C3: a concrete three-record chain of `alice` passes,
and removing the middle record fails. -/
theorem verify_hash_chain_detects_deletion_witness :
    verify_hash_chain [chainEvent1, chainEvent2, chainEvent3] "alice" = true ∧
    verify_hash_chain [chainEvent1, chainEvent3] "alice" = false := by
  have h := verify_hash_chain_detects_deletion [chainEvent1, chainEvent2, chainEvent3] "alice"
    (by decide) (by decide) (by decide)
    (by
      refine ⟨?_, ?_⟩
      · intro e he
        obtain rfl : chainEvent1 = e := by simpa using he
        rfl
      · rw [List.chain'_cons, List.chain'_cons]
        exact ⟨rfl, rfl, List.chain'_singleton _⟩)
    (by
      rw [List.chain'_cons, List.chain'_cons]
      exact ⟨by decide, by decide, List.chain'_singleton _⟩)
  exact ⟨h.1, h.2 [chainEvent1] chainEvent2 [chainEvent3] rfl (by simp) (by simp)⟩

/-! ## C1 — canonical encoding is field-order independent -/

theorem keyStringsNodup_iff (ks : List String) :
    keyStringsNodup ks = true ↔ ks.Nodup := by
  induction ks with
  | nil => simp [keyStringsNodup]
  | cons k rest ih =>
    rw [keyStringsNodup, Bool.and_eq_true, List.nodup_cons, ih]
    constructor
    · rintro ⟨h1, h2⟩
      refine ⟨fun hmem => ?_, h2⟩
      have := List.all_eq_true.mp h1 k hmem
      simp at this
    · rintro ⟨h1, h2⟩
      refine ⟨List.all_eq_true.mpr (fun k2 hk2 => ?_), h2⟩
      simp only [bne_iff_ne, ne_eq]
      intro hkk
      exact h1 (hkk ▸ hk2)

theorem nodupKVsRec_iff (l : List (String × JsonVal)) :
    nodupKVsRec l = true ↔ ∀ p ∈ l, nodupKeysRec p.2 = true := by
  induction l with
  | nil => simp [nodupKVsRec]
  | cons p rest ih =>
    rw [nodupKVsRec, Bool.and_eq_true, ih]
    simp

theorem sortJsonKVs_eq_map (l : List (String × JsonVal)) :
    sortJsonKVs l = l.map (fun p => (p.1, sortJson p.2)) := by
  induction l with
  | nil => rfl
  | cons p rest ih => rw [show sortJsonKVs (p :: rest) = (p.1, sortJson p.2) :: sortJsonKVs rest from rfl, ih, List.map_cons]

theorem eqMapKVs_keys : ∀ {r s : List (String × JsonVal)}, EqMapKVs r s →
    r.map Prod.fst = s.map Prod.fst
  | _, _, EqMapKVs.nil => rfl
  | _, _, EqMapKVs.cons _ _ ht => by
    simp only [List.map_cons]
    rw [eqMapKVs_keys ht]

theorem sortKVs_insertion_eq (s1 s2 : List (String × JsonVal))
    (hperm : s1.Perm s2) (hnodup : (s1.map Prod.fst).Nodup) :
    List.insertionSort keyLe s1 = List.insertionSort keyLe s2 := by
  haveI : IsTotal (String × JsonVal) keyLe :=
    ⟨fun a b => charListLe_total a.1.data b.1.data⟩
  haveI : IsTrans (String × JsonVal) keyLe :=
    ⟨fun a b c hab hbc => charListLe_trans a.1.data b.1.data c.1.data hab hbc⟩
  haveI : IsAntisymm (String × JsonVal) (fun a b => keyLe a b ∧ a.1 ≠ b.1) :=
    ⟨fun a b h1 h2 =>
      absurd (string_eq_of_data a.1 b.1 (charListLe_antisymm a.1.data b.1.data h1.1 h2.1))
        h1.2⟩
  have hp1 : (List.insertionSort keyLe s1).Perm s1 := List.perm_insertionSort keyLe s1
  have hp2 : (List.insertionSort keyLe s2).Perm s2 := List.perm_insertionSort keyLe s2
  have hp12 : (List.insertionSort keyLe s1).Perm (List.insertionSort keyLe s2) :=
    hp1.trans (hperm.trans hp2.symm)
  have hnodup2 : (s2.map Prod.fst).Nodup := ((hperm.map Prod.fst).nodup_iff).mp hnodup
  have hne1 : (List.insertionSort keyLe s1).Pairwise (fun a b => a.1 ≠ b.1) :=
    List.pairwise_map.mp (((hp1.map Prod.fst).nodup_iff).mpr hnodup)
  have hne2 : (List.insertionSort keyLe s2).Pairwise (fun a b => a.1 ≠ b.1) :=
    List.pairwise_map.mp (((hp2.map Prod.fst).nodup_iff).mpr hnodup2)
  have hs1 : List.Sorted keyLe (List.insertionSort keyLe s1) :=
    List.sorted_insertionSort keyLe s1
  have hs2 : List.Sorted keyLe (List.insertionSort keyLe s2) :=
    List.sorted_insertionSort keyLe s2
  exact List.eq_of_perm_of_sorted hp12 (hs1.and hne1) (hs2.and hne2)

theorem nodup_pop (d : EventDict) (h : nodupKeysRec (JsonVal.obj d) = true) :
    nodupKeysRec (JsonVal.obj (dictPopSignature d)) = true := by
  rw [nodupKeysRec, Bool.and_eq_true] at h ⊢
  obtain ⟨hk, hv⟩ := h
  constructor
  · rw [keyStringsNodup_iff] at hk ⊢
    exact hk.sublist ((List.filter_sublist d).map Prod.fst)
  · rw [nodupKVsRec_iff] at hv ⊢
    exact fun p hp => hv p (List.mem_of_mem_filter hp)

theorem sign_event_signature_field (sign : List Nat → String) (d : EventDict) :
    lookupField (sign_event sign d) "signature" =
      some (JsonVal.str (sign (utf8Encode (canonicalJson (dictPopSignature d))))) := by
  have hset : sign_event sign d = dictPopSignature d ++
      [("signature", JsonVal.str (sign (utf8Encode (canonicalJson (dictPopSignature d)))))] := by
    simp [sign_event, dictSet, pop_has_no_signature]
  rw [hset, lookupField_append_key _ _ _ (pop_has_no_signature _)]

mutual

theorem eqMap_sort : ∀ {v1 v2 : JsonVal}, EqMap v1 v2 → nodupKeysRec v1 = true →
    nodupKeysRec v2 = true → sortJson v1 = sortJson v2
  | _, _, EqMap.null, _, _ => rfl
  | _, _, EqMap.bool _, _, _ => rfl
  | _, _, EqMap.num _, _, _ => rfl
  | _, _, EqMap.str _, _, _ => rfl
  | _, _, @EqMap.arr xs ys hl, h1, h2 =>
    congrArg JsonVal.arr (eqMapList_sort hl h1 h2)
  | _, _, @EqMap.obj kvs1 mid kvs2 hkv hperm, h1, h2 => by
    simp only [nodupKeysRec, Bool.and_eq_true] at h1 h2
    have hmidvals : nodupKVsRec mid = true := by
      rw [nodupKVsRec_iff]
      intro p hp
      exact (nodupKVsRec_iff kvs2).mp h2.2 p (hperm.subset hp)
    have e1 : sortJsonKVs kvs1 = sortJsonKVs mid := eqMapKVs_sort hkv h1.2 hmidvals
    have e2 : (sortJsonKVs mid).Perm (sortJsonKVs kvs2) := by
      rw [sortJsonKVs_eq_map, sortJsonKVs_eq_map]
      exact hperm.map _
    show JsonVal.obj (List.insertionSort keyLe (sortJsonKVs kvs1)) =
      JsonVal.obj (List.insertionSort keyLe (sortJsonKVs kvs2))
    rw [e1]
    refine congrArg JsonVal.obj (sortKVs_insertion_eq _ _ e2 ?_)
    rw [sortJsonKVs_eq_map, List.map_map]
    have hcomp : (Prod.fst ∘ fun p : String × JsonVal => (p.1, sortJson p.2)) = Prod.fst := rfl
    rw [hcomp, ← eqMapKVs_keys hkv]
    exact (keyStringsNodup_iff _).mp h1.1

theorem eqMapList_sort : ∀ {xs ys : List JsonVal}, EqMapList xs ys → nodupListRec xs = true →
    nodupListRec ys = true → sortJsonList xs = sortJsonList ys
  | _, _, EqMapList.nil, _, _ => rfl
  | _, _, @EqMapList.cons x y xs ys hv ht, h1, h2 => by
    simp only [nodupListRec, Bool.and_eq_true] at h1 h2
    show sortJson x :: sortJsonList xs = sortJson y :: sortJsonList ys
    rw [eqMap_sort hv h1.1 h2.1, eqMapList_sort ht h1.2 h2.2]

theorem eqMapKVs_sort : ∀ {r s : List (String × JsonVal)}, EqMapKVs r s →
    nodupKVsRec r = true → nodupKVsRec s = true → sortJsonKVs r = sortJsonKVs s
  | _, _, EqMapKVs.nil, _, _ => rfl
  | _, _, @EqMapKVs.cons k v w r s hv ht, h1, h2 => by
    simp only [nodupKVsRec, Bool.and_eq_true] at h1 h2
    show (k, sortJson v) :: sortJsonKVs r = (k, sortJson w) :: sortJsonKVs s
    rw [eqMap_sort hv h1.1 h2.1, eqMapKVs_sort ht h1.2 h2.2]

end

/-- C1: the canonical encoding is field-order independent and excludes
the signature: for any two event dictionaries that are equal as
key-value maps after removing the `signature` field (whatever
`signature` held, and in whatever insertion order the fields appear),
`compute_event_hash` returns the same hash and `sign_event` with the
same keypair attaches the same signature, because both operate on the
same canonical byte encoding (keys sorted lexicographically, compact
separators, UTF-8) of the non-signature fields. -/
theorem canonical_encoding_order_independent (sign : List Nat → String) (d1 d2 : EventDict)
    (h1 : nodupKeysRec (JsonVal.obj d1) = true)
    (h2 : nodupKeysRec (JsonVal.obj d2) = true)
    (heq : EqMap (JsonVal.obj (dictPopSignature d1)) (JsonVal.obj (dictPopSignature d2))) :
    compute_event_hash d1 = compute_event_hash d2 ∧
    lookupField (sign_event sign d1) "signature" =
      lookupField (sign_event sign d2) "signature" := by
  have hcanon : canonicalJson (dictPopSignature d1) = canonicalJson (dictPopSignature d2) := by
    unfold canonicalJson
    rw [eqMap_sort heq (nodup_pop d1 h1) (nodup_pop d2 h2)]
  constructor
  · show String.mk (b64encodeBytes (sha256 (utf8Encode (canonicalJson (dictPopSignature d1))))) =
      String.mk (b64encodeBytes (sha256 (utf8Encode (canonicalJson (dictPopSignature d2)))))
    rw [hcanon]
  · rw [sign_event_signature_field, sign_event_signature_field, hcanon]

/-- Witness for C1: two dictionaries with the same key-value pairs in
different insertion order, one carrying a stale `signature` field,
hash identically and are signed identically. -/
theorem canonical_encoding_order_independent_witness :
    compute_event_hash [("b", JsonVal.num 2), ("a", JsonVal.str "x")] =
      compute_event_hash
        [("a", JsonVal.str "x"), ("signature", JsonVal.str "stale"), ("b", JsonVal.num 2)] ∧
    lookupField (sign_event (fun _ => "SIG") [("b", JsonVal.num 2), ("a", JsonVal.str "x")])
        "signature" =
      lookupField (sign_event (fun _ => "SIG")
        [("a", JsonVal.str "x"), ("signature", JsonVal.str "stale"), ("b", JsonVal.num 2)])
        "signature" :=
  canonical_encoding_order_independent (fun _ => "SIG")
    [("b", JsonVal.num 2), ("a", JsonVal.str "x")]
    [("a", JsonVal.str "x"), ("signature", JsonVal.str "stale"), ("b", JsonVal.num 2)]
    (by decide) (by decide)
    (EqMap.obj
      (EqMapKVs.cons "b" (EqMap.num 2) (EqMapKVs.cons "a" (EqMap.str "x") EqMapKVs.nil))
      (List.Perm.swap ("a", JsonVal.str "x") ("b", JsonVal.num 2) []))

/-! ## C7 — lossless JSONL round trip -/

theorem string_mk_data (s : String) : String.mk s.data = s := by
  cases s
  rfl

theorem natDigitsAux_eq : ∀ fuel n : Nat, n < fuel → natDigitsAux fuel n = natDigits n := by
  intro fuel
  induction fuel using Nat.strong_induction_on with
  | _ fuel ih =>
    intro n hn
    match fuel, hn with
    | f + 1, hn =>
      by_cases h10 : n < 10
      · simp only [natDigitsAux, if_pos h10, natDigits]
      · have hd : n / 10 < n := Nat.div_lt_self (by omega) (by omega)
        rw [natDigits]
        simp only [natDigitsAux, if_neg h10]
        rw [ih f (by omega) (n / 10) (by omega), ih n (by omega) (n / 10) hd]

theorem natDigits_base (n : Nat) (h : n < 10) : natDigits n = [Char.ofNat (48 + n)] := by
  rw [natDigits]
  simp only [natDigitsAux, if_pos h]

theorem natDigits_step (n : Nat) (h : ¬ n < 10) :
    natDigits n = natDigits (n / 10) ++ [Char.ofNat (48 + n % 10)] := by
  rw [natDigits]
  simp only [natDigitsAux, if_neg h]
  rw [natDigitsAux_eq n (n / 10) (Nat.div_lt_self (by omega) (by omega))]

theorem digitChar_toNat (k : Nat) (h : k < 10) : (Char.ofNat (48 + k)).toNat = 48 + k := by
  interval_cases k <;> decide

theorem isDigitChar_digitChar (k : Nat) (h : k < 10) :
    isDigitChar (Char.ofNat (48 + k)) = true := by
  interval_cases k <;> decide

theorem natDigits_ne_nil (n : Nat) : natDigits n ≠ [] := by
  by_cases h : n < 10
  · rw [natDigits_base n h]
    simp
  · rw [natDigits_step n h]
    simp

theorem natDigits_digits (n : Nat) : ∀ c ∈ natDigits n, isDigitChar c = true := by
  induction n using Nat.strong_induction_on with
  | _ n ih =>
    by_cases h : n < 10
    · rw [natDigits_base n h]
      intro c hc
      rw [List.mem_singleton] at hc
      subst hc
      exact isDigitChar_digitChar n h
    · rw [natDigits_step n h]
      intro c hc
      rcases List.mem_append.mp hc with hc | hc
      · exact ih (n / 10) (Nat.div_lt_self (by omega) (by omega)) c hc
      · rw [List.mem_singleton] at hc
        subst hc
        exact isDigitChar_digitChar (n % 10) (Nat.mod_lt n (by omega))

theorem parseDigitsAux_stop (acc : Nat) (rest : List Char)
    (h : ∀ c ∈ rest.head?, isDigitChar c = false) : parseDigitsAux acc rest = (acc, rest) := by
  cases rest with
  | nil => rfl
  | cons c t =>
    have hc := h c rfl
    simp only [parseDigitsAux, hc]
    simp

theorem parseDigitsAux_natDigits : ∀ n acc rest,
    parseDigitsAux acc (natDigits n ++ rest) =
      parseDigitsAux (acc * 10 ^ (natDigits n).length + n) rest := by
  intro n
  induction n using Nat.strong_induction_on with
  | _ n ih =>
    intro acc rest
    by_cases h : n < 10
    · rw [natDigits_base n h, List.singleton_append]
      rw [show parseDigitsAux acc (Char.ofNat (48 + n) :: rest) =
          parseDigitsAux (10 * acc + ((Char.ofNat (48 + n)).toNat - 48)) rest from by
        simp [parseDigitsAux, isDigitChar_digitChar n h]]
      rw [digitChar_toNat n h]
      congr 1
      simp only [List.length_singleton, pow_one]
      omega
    · have hd : n / 10 < n := Nat.div_lt_self (by omega) (by omega)
      have hm : n % 10 < 10 := Nat.mod_lt n (by omega)
      rw [natDigits_step n h, List.append_assoc, ih (n / 10) hd acc _, List.singleton_append]
      rw [show parseDigitsAux (acc * 10 ^ (natDigits (n / 10)).length + n / 10)
            (Char.ofNat (48 + n % 10) :: rest) =
          parseDigitsAux (10 * (acc * 10 ^ (natDigits (n / 10)).length + n / 10) +
            ((Char.ofNat (48 + n % 10)).toNat - 48)) rest from by
        simp [parseDigitsAux, isDigitChar_digitChar (n % 10) hm]]
      rw [digitChar_toNat (n % 10) hm]
      congr 1
      simp only [List.length_append, List.length_singleton, pow_succ, ← mul_assoc]
      have hdm : 10 * (n / 10) + n % 10 = n := Nat.div_add_mod n 10
      generalize acc * 10 ^ (natDigits (n / 10)).length = A
      omega

theorem char_ne_of_toNat_ne (a b : Char) (h : a.toNat ≠ b.toNat) : a ≠ b :=
  fun heq => h (congrArg Char.toNat heq)

theorem parseDigitsAux_zero_natDigits (n : Nat) (rest : List Char)
    (hrest : ∀ c ∈ rest.head?, isDigitChar c = false) :
    parseDigitsAux 0 (natDigits n ++ rest) = (n, rest) := by
  rw [parseDigitsAux_natDigits n 0 rest, Nat.zero_mul, Nat.zero_add,
    parseDigitsAux_stop n rest hrest]

theorem parseIntToken_print (i : Int) (rest : List Char)
    (hrest : ∀ c ∈ rest.head?, isDigitChar c = false) :
    parseIntToken (intChars i ++ rest) = some (i, rest) := by
  by_cases hneg : i < 0
  · rw [intChars, if_pos hneg, List.cons_append]
    obtain ⟨c, t, hct⟩ : ∃ c t, natDigits i.natAbs = c :: t := by
      cases hnd : natDigits i.natAbs with
      | nil => exact absurd hnd (natDigits_ne_nil _)
      | cons c t => exact ⟨c, t, rfl⟩
    have hcd : isDigitChar c = true := natDigits_digits i.natAbs c (hct ▸ List.mem_cons_self c t)
    have hzero := parseDigitsAux_zero_natDigits i.natAbs rest hrest
    rw [hct, List.cons_append] at hzero
    simp only [parseDigitsAux, hcd] at hzero
    rw [parseIntToken.eq_def]
    simp only [if_pos rfl]
    rw [hct, List.cons_append]
    simp only [hcd, if_pos]
    simp only [if_true] at hzero
    rw [show (10 : Nat) * 0 + (c.toNat - 48) = c.toNat - 48 from by omega] at hzero
    rw [hzero]
    have habs : (i.natAbs : Int) = -i := by omega
    simp [habs]
  · rw [intChars, if_neg hneg]
    obtain ⟨c, t, hct⟩ : ∃ c t, natDigits i.natAbs = c :: t := by
      cases hnd : natDigits i.natAbs with
      | nil => exact absurd hnd (natDigits_ne_nil _)
      | cons c t => exact ⟨c, t, rfl⟩
    have hcd : isDigitChar c = true := natDigits_digits i.natAbs c (hct ▸ List.mem_cons_self c t)
    have hcne : c ≠ '-' := by
      refine char_ne_of_toNat_ne c '-' ?_
      simp only [isDigitChar, Bool.and_eq_true, decide_eq_true_eq] at hcd
      intro hcc
      rw [hcc] at hcd
      exact absurd hcd (by decide)
    have hzero := parseDigitsAux_zero_natDigits i.natAbs rest hrest
    rw [hct, List.cons_append] at hzero ⊢
    simp only [parseDigitsAux, hcd] at hzero
    rw [parseIntToken.eq_def]
    simp only [if_neg hcne]
    simp only [hcd, if_pos]
    simp only [if_true] at hzero
    rw [show (10 : Nat) * 0 + (c.toNat - 48) = c.toNat - 48 from by omega] at hzero
    rw [hzero]
    have habs : (i.natAbs : Int) = i := by omega
    simp [habs]

theorem hexVal_hexDigitChar (k : Nat) (h : k < 16) : hexVal (hexDigitChar k) = some k := by
  interval_cases k <;> decide

theorem parseStringAux_print : ∀ (fuel : Nat) (s rest : List Char), s.length < fuel →
    parseStringAux fuel (s.flatMap (escapeChar false) ++ ('"' :: rest)) = some (s, rest) := by
  intro fuel
  induction fuel with
  | zero => intro s rest h; omega
  | succ f ih =>
    intro s rest hlen
    cases s with
    | nil => simp [parseStringAux]
    | cons c t =>
      have hlt : t.length < f := by simpa using hlen
      rw [List.flatMap_cons, List.append_assoc]
      by_cases h1 : c = '"'
      · subst h1
        simp [escapeChar, parseStringAux, ih t rest hlt]
      · by_cases h2 : c = '\\'
        · subst h2
          simp [escapeChar, parseStringAux, ih t rest hlt]
        · by_cases h3 : c = '\n'
          · subst h3
            simp [escapeChar, parseStringAux, ih t rest hlt]
          · by_cases h4 : c = '\t'
            · subst h4
              simp [escapeChar, parseStringAux, ih t rest hlt]
            · by_cases h5 : c = '\r'
              · subst h5
                simp [escapeChar, parseStringAux, ih t rest hlt]
              · by_cases h6 : c = Char.ofNat 8
                · subst h6
                  simp [escapeChar, parseStringAux, ih t rest hlt]
                · by_cases h7 : c = Char.ofNat 12
                  · subst h7
                    simp [escapeChar, parseStringAux, ih t rest hlt]
                  · by_cases h8 : c.toNat < 32
                    · rw [show escapeChar false c =
                          ['\\', 'u', hexDigitChar (c.toNat / 4096 % 16),
                           hexDigitChar (c.toNat / 256 % 16), hexDigitChar (c.toNat / 16 % 16),
                           hexDigitChar (c.toNat % 16)] from by
                        simp [escapeChar, h1, h2, h3, h4, h5, h6, h7, h8]]
                      have e1 : c.toNat / 4096 % 16 = 0 := by omega
                      have e2 : c.toNat / 256 % 16 = 0 := by omega
                      simp only [List.cons_append, List.nil_append]
                      rw [show parseStringAux (f + 1)
                            ('\\' :: 'u' :: hexDigitChar (c.toNat / 4096 % 16) ::
                              hexDigitChar (c.toNat / 256 % 16) ::
                              hexDigitChar (c.toNat / 16 % 16) :: hexDigitChar (c.toNat % 16) ::
                              (t.flatMap (escapeChar false) ++ '"' :: rest)) =
                          (parseStringAux f (t.flatMap (escapeChar false) ++ '"' :: rest)).map
                            (fun p => (Char.ofNat (c.toNat / 4096 % 16 * 4096 +
                              c.toNat / 256 % 16 * 256 + c.toNat / 16 % 16 * 16 +
                              c.toNat % 16) :: p.1, p.2)) from by
                        simp [parseStringAux,
                          hexVal_hexDigitChar _ (by omega : c.toNat / 4096 % 16 < 16),
                          hexVal_hexDigitChar _ (by omega : c.toNat / 256 % 16 < 16),
                          hexVal_hexDigitChar _ (by omega : c.toNat / 16 % 16 < 16),
                          hexVal_hexDigitChar _ (by omega : c.toNat % 16 < 16)]]
                      rw [ih t rest hlt]
                      have hval : c.toNat / 4096 % 16 * 4096 + c.toNat / 256 % 16 * 256 +
                          c.toNat / 16 % 16 * 16 + c.toNat % 16 = c.toNat := by omega
                      rw [hval, Char.ofNat_toNat]
                      rfl
                    · rw [show escapeChar false c = [c] from by
                          simp [escapeChar, h1, h2, h3, h4, h5, h6, h7, h8]]
                      rw [List.singleton_append]
                      rw [show parseStringAux (f + 1)
                            (c :: (t.flatMap (escapeChar false) ++ '"' :: rest)) =
                          (parseStringAux f (t.flatMap (escapeChar false) ++ '"' :: rest)).map
                            (fun p => (c :: p.1, p.2)) from by
                        simp [parseStringAux, h1, h2, h8]]
                      rw [ih t rest hlt]
                      rfl

theorem escape_len_ge (s : List Char) :
    s.length ≤ (s.flatMap (escapeChar false)).length := by
  induction s with
  | nil => simp
  | cons c t ih =>
    rw [List.flatMap_cons, List.length_append, List.length_cons]
    have h1 : 1 ≤ (escapeChar false c).length := by
      unfold escapeChar
      repeat' split
      all_goals simp
    omega

theorem parseStringChars_print (s rest : List Char) :
    parseStringChars (s.flatMap (escapeChar false) ++ ('"' :: rest)) = some (s, rest) := by
  rw [parseStringChars]
  refine parseStringAux_print _ s rest ?_
  have := escape_len_ge s
  simp only [List.length_append, List.length_cons]
  omega

theorem pyStrip_wrap (a : Char) (mid : List Char) (b : Char)
    (ha : isPyWs a = false) (hb : isPyWs b = false) :
    pyStrip ((a :: mid ++ [b]) ++ ['\n']) = a :: mid ++ [b] := by
  unfold pyStrip
  rw [show (a :: mid ++ [b]) ++ ['\n'] = a :: (mid ++ [b] ++ ['\n']) from by simp]
  rw [List.dropWhile_cons]
  simp only [ha, Bool.false_eq_true, if_false]
  have h1 : (a :: (mid ++ [b] ++ ['\n'])).reverse = '\n' :: b :: (mid.reverse ++ [a]) := by
    simp
  rw [h1, List.dropWhile_cons]
  simp only [show isPyWs '\n' = true from by decide, if_true]
  rw [List.dropWhile_cons]
  simp only [hb, Bool.false_eq_true, if_false]
  simp

theorem printJson_head_ne (v : JsonVal) :
    ∃ c t, printJson false v = c :: t ∧ c ≠ Char.ofNat 93 := by
  cases v with
  | null => exact ⟨'n', _, rfl, by decide⟩
  | bool b =>
    cases b with
    | true => exact ⟨'t', _, rfl, by decide⟩
    | false => exact ⟨'f', _, rfl, by decide⟩
  | str s => exact ⟨'"', _, rfl, by decide⟩
  | arr xs => exact ⟨Char.ofNat 91, _, rfl, by decide⟩
  | obj kvs => exact ⟨Char.ofNat 123, _, rfl, by decide⟩
  | num n =>
    show ∃ c t, intChars n = c :: t ∧ c ≠ Char.ofNat 93
    rw [intChars]
    by_cases hn : n < 0
    · rw [if_pos hn]
      exact ⟨'-', _, rfl, by decide⟩
    · rw [if_neg hn]
      obtain ⟨c, t, hct⟩ : ∃ c t, natDigits n.natAbs = c :: t := by
        cases hnd : natDigits n.natAbs with
        | nil => exact absurd hnd (natDigits_ne_nil _)
        | cons c t => exact ⟨c, t, rfl⟩
      have hcd : isDigitChar c = true :=
        natDigits_digits n.natAbs c (hct ▸ List.mem_cons_self c t)
      refine ⟨c, t, hct, char_ne_of_toNat_ne c _ ?_⟩
      simp only [isDigitChar, Bool.and_eq_true, decide_eq_true_eq] at hcd
      rw [show (Char.ofNat 93).toNat = 93 from by decide]
      omega

mutual

theorem jsize_le_print : ∀ v : JsonVal, jsize v ≤ (printJson false v).length
  | JsonVal.null => by simp [jsize, printJson]
  | JsonVal.bool true => by simp [jsize, printJson]
  | JsonVal.bool false => by simp [jsize, printJson]
  | JsonVal.num n => by simp [jsize]
  | JsonVal.str s => by simp [jsize]
  | JsonVal.arr xs => by
    have h := jsizeL_le_print xs
    show jsizeL xs + 1 ≤ (Char.ofNat 91 :: printArrItems false xs ++ [Char.ofNat 93]).length
    simp only [List.cons_append, List.length_cons, List.length_append, List.length_singleton]
    omega
  | JsonVal.obj kvs => by
    have h := jsizeKV_le_print kvs
    show jsizeKV kvs + 1 ≤ (Char.ofNat 123 :: printObjItems false kvs ++ [Char.ofNat 125]).length
    simp only [List.cons_append, List.length_cons, List.length_append, List.length_singleton]
    omega
termination_by structural v => v

theorem jsizeL_le_print : ∀ xs : List JsonVal, jsizeL xs ≤ (printArrItems false xs).length + 1
  | [] => by simp [jsizeL]
  | [x] => by
    have h := jsize_le_print x
    show jsize x + jsizeL [] + 1 ≤ (printJson false x).length + 1
    simp only [jsizeL]
    omega
  | x :: y :: rest => by
    have h1 := jsize_le_print x
    have h2 := jsizeL_le_print (y :: rest)
    show jsize x + jsizeL (y :: rest) + 1 ≤
      (printJson false x ++ ',' :: printArrItems false (y :: rest)).length + 1
    simp only [List.length_append, List.length_cons]
    omega
termination_by structural xs => xs

theorem jsizeKV_le_print : ∀ kvs : List (String × JsonVal),
    jsizeKV kvs ≤ (printObjItems false kvs).length + 1
  | [] => by simp [jsizeKV]
  | [(k, v)] => by
    have h := jsize_le_print v
    show jsize v + jsizeKV [] + 1 ≤
      (printStringLit false k ++ ':' :: printJson false v).length + 1
    simp only [jsizeKV, List.length_append, List.length_cons]
    omega
  | (k, v) :: p :: rest => by
    have h1 := jsize_le_print v
    have h2 := jsizeKV_le_print (p :: rest)
    show jsize v + jsizeKV (p :: rest) + 1 ≤
      (printStringLit false k ++ ':' :: printJson false v ++
        ',' :: printObjItems false (p :: rest)).length + 1
    simp only [List.length_append, List.length_cons]
    omega
termination_by structural kvs => kvs

end

theorem intChars_head (n : Int) :
    ∃ c t, intChars n = c :: t ∧ (c = '-' ∨ isDigitChar c = true) := by
  rw [intChars]
  by_cases hn : n < 0
  · rw [if_pos hn]
    exact ⟨'-', _, rfl, Or.inl rfl⟩
  · rw [if_neg hn]
    obtain ⟨c, t, hct⟩ : ∃ c t, natDigits n.natAbs = c :: t := by
      cases hnd : natDigits n.natAbs with
      | nil => exact absurd hnd (natDigits_ne_nil _)
      | cons c t => exact ⟨c, t, rfl⟩
    exact ⟨c, t, hct, Or.inr (natDigits_digits n.natAbs c (hct ▸ List.mem_cons_self c t))⟩

theorem parseVal_to_intToken (f : Nat) (c : Char) (t : List Char)
    (h1 : c = '-' ∨ isDigitChar c = true) :
    parseVal (f + 1) (c :: t) =
      (parseIntToken (c :: t)).map (fun p => (JsonVal.num p.1, p.2)) := by
  have hne : c ≠ 'n' ∧ c ≠ 't' ∧ c ≠ 'f' ∧ c ≠ '"' ∧ c ≠ Char.ofNat 91 ∧ c ≠ Char.ofNat 123 := by
    rcases h1 with h | h
    · subst h
      exact ⟨by decide, by decide, by decide, by decide, by decide, by decide⟩
    · simp only [isDigitChar, Bool.and_eq_true, decide_eq_true_eq] at h
      refine ⟨char_ne_of_toNat_ne _ _ ?_, char_ne_of_toNat_ne _ _ ?_,
        char_ne_of_toNat_ne _ _ ?_, char_ne_of_toNat_ne _ _ ?_,
        char_ne_of_toNat_ne _ _ ?_, char_ne_of_toNat_ne _ _ ?_⟩
      · rw [show ('n').toNat = 110 from by decide]; omega
      · rw [show ('t').toNat = 116 from by decide]; omega
      · rw [show ('f').toNat = 102 from by decide]; omega
      · rw [show ('"').toNat = 34 from by decide]; omega
      · rw [show (Char.ofNat 91).toNat = 91 from by decide]; omega
      · rw [show (Char.ofNat 123).toNat = 123 from by decide]; omega
  simp [parseVal, hne.1, hne.2.1, hne.2.2.1, hne.2.2.2.1, hne.2.2.2.2.1, hne.2.2.2.2.2]

theorem parse_print (fuel : Nat) :
    (∀ v rest, jsize v < fuel → (∀ c ∈ rest.head?, isDigitChar c = false) →
      parseVal fuel (printJson false v ++ rest) = some (v, rest)) ∧
    (∀ xs rest, xs ≠ [] → jsizeL xs < fuel →
      parseArrElems fuel (printArrItems false xs ++ (Char.ofNat 93 :: rest)) =
        some (xs, rest)) ∧
    (∀ kvs rest, kvs ≠ [] → jsizeKV kvs < fuel →
      parseObjMembers fuel (printObjItems false kvs ++ (Char.ofNat 125 :: rest)) =
        some (kvs, rest)) := by
  induction fuel with
  | zero =>
    exact ⟨fun v rest h _ => absurd h (by omega),
      fun xs rest _ h => absurd h (by omega),
      fun kvs rest _ h => absurd h (by omega)⟩
  | succ f ih =>
    obtain ⟨ihP, ihQ, ihR⟩ := ih
    refine ⟨?_, ?_, ?_⟩
    · intro v rest hsz hrest
      cases v with
      | null => simp [printJson, parseVal, dropLit]
      | bool b =>
        cases b with
        | true => simp [printJson, parseVal, dropLit]
        | false => simp [printJson, parseVal, dropLit]
      | str s =>
        rw [show printJson false (JsonVal.str s) =
            '"' :: (s.data.flatMap (escapeChar false) ++ ['"']) from rfl]
        rw [List.cons_append, List.append_assoc, List.singleton_append]
        rw [show parseVal (f + 1)
            ('"' :: (s.data.flatMap (escapeChar false) ++ '"' :: rest)) =
          (parseStringChars (s.data.flatMap (escapeChar false) ++ '"' :: rest)).map
            (fun p => (JsonVal.str (String.mk p.1), p.2)) from by simp [parseVal]]
        rw [parseStringChars_print]
        simp [string_mk_data]
      | num n =>
        obtain ⟨c, t, hct, hc⟩ := intChars_head n
        rw [show printJson false (JsonVal.num n) = intChars n from rfl, hct, List.cons_append,
          parseVal_to_intToken f c (t ++ rest) hc, ← List.cons_append, ← hct,
          parseIntToken_print n rest hrest]
        rfl
      | arr xs =>
        cases xs with
        | nil => simp [printJson, printArrItems, parseVal]
        | cons x xs2 =>
          rw [show printJson false (JsonVal.arr (x :: xs2)) =
              Char.ofNat 91 :: (printArrItems false (x :: xs2) ++ [Char.ofNat 93]) from rfl]
          rw [List.cons_append, List.append_assoc, List.singleton_append]
          obtain ⟨c0, t0, h0, h93⟩ := printJson_head_ne x
          have hitems : ∃ t1, printArrItems false (x :: xs2) = c0 :: t1 := by
            cases xs2 with
            | nil => exact ⟨t0, h0⟩
            | cons y ys =>
              refine ⟨t0 ++ ',' :: printArrItems false (y :: ys), ?_⟩
              rw [show printArrItems false (x :: y :: ys) =
                  printJson false x ++ ',' :: printArrItems false (y :: ys) from rfl, h0]
              rfl
          obtain ⟨t1, ht1⟩ := hitems
          rw [ht1, List.cons_append]
          rw [show parseVal (f + 1)
              (Char.ofNat 91 :: c0 :: (t1 ++ Char.ofNat 93 :: rest)) =
            (parseArrElems f (c0 :: (t1 ++ Char.ofNat 93 :: rest))).map
              (fun p => (JsonVal.arr p.1, p.2)) from by simp [parseVal, h93]]
          rw [← List.cons_append, ← ht1]
          rw [ihQ (x :: xs2) rest (by simp) (by
            have : jsize (JsonVal.arr (x :: xs2)) = jsizeL (x :: xs2) + 1 := rfl
            omega)]
          rfl
      | obj kvs =>
        cases kvs with
        | nil => simp [printJson, printObjItems, parseVal]
        | cons p kvs2 =>
          rw [show printJson false (JsonVal.obj (p :: kvs2)) =
              Char.ofNat 123 :: (printObjItems false (p :: kvs2) ++ [Char.ofNat 125]) from rfl]
          rw [List.cons_append, List.append_assoc, List.singleton_append]
          have hitems : ∃ t1, printObjItems false (p :: kvs2) = '"' :: t1 := by
            cases kvs2 with
            | nil =>
              refine ⟨p.1.data.flatMap (escapeChar false) ++ ['"'] ++
                ':' :: printJson false p.2, ?_⟩
              rw [show printObjItems false [p] =
                  printStringLit false p.1 ++ ':' :: printJson false p.2 from by
                cases p; rfl]
              rw [show printStringLit false p.1 =
                  '"' :: (p.1.data.flatMap (escapeChar false) ++ ['"']) from rfl]
              simp
            | cons q qs =>
              refine ⟨p.1.data.flatMap (escapeChar false) ++ ['"'] ++
                ':' :: printJson false p.2 ++ ',' :: printObjItems false (q :: qs), ?_⟩
              rw [show printObjItems false (p :: q :: qs) =
                  printStringLit false p.1 ++ ':' :: printJson false p.2 ++
                    ',' :: printObjItems false (q :: qs) from by
                cases p; rfl]
              rw [show printStringLit false p.1 =
                  '"' :: (p.1.data.flatMap (escapeChar false) ++ ['"']) from rfl]
              simp
          obtain ⟨t1, ht1⟩ := hitems
          rw [ht1, List.cons_append]
          rw [show parseVal (f + 1)
              (Char.ofNat 123 :: '"' :: (t1 ++ Char.ofNat 125 :: rest)) =
            (parseObjMembers f ('"' :: (t1 ++ Char.ofNat 125 :: rest))).map
              (fun p => (JsonVal.obj p.1, p.2)) from by simp [parseVal]]
          rw [← List.cons_append, ← ht1]
          rw [ihR (p :: kvs2) rest (by simp) (by
            have : jsize (JsonVal.obj (p :: kvs2)) = jsizeKV (p :: kvs2) + 1 := rfl
            omega)]
          rfl
    · intro xs rest hne hsz
      cases xs with
      | nil => exact absurd rfl hne
      | cons x xs2 =>
        cases xs2 with
        | nil =>
          rw [show printArrItems false [x] = printJson false x from rfl]
          have hx : jsize x < f := by
            have : jsizeL [x] = jsize x + 0 + 1 := rfl
            omega
          rw [show parseArrElems (f + 1) (printJson false x ++ Char.ofNat 93 :: rest) =
              (parseVal f (printJson false x ++ Char.ofNat 93 :: rest)).bind (fun p =>
                match p.2 with
                | c2 :: r2 =>
                  if c2 = ',' then (parseArrElems f r2).map (fun q => (p.1 :: q.1, q.2))
                  else if c2 = Char.ofNat 93 then some ([p.1], r2)
                  else none
                | [] => none) from by simp [parseArrElems]]
          rw [ihP x (Char.ofNat 93 :: rest) hx (by
            intro c hc
            simp only [List.head?_cons, Option.mem_def, Option.some_inj] at hc
            subst hc
            decide)]
          simp
        | cons y ys =>
          rw [show printArrItems false (x :: y :: ys) =
              printJson false x ++ ',' :: printArrItems false (y :: ys) from rfl]
          rw [List.append_assoc, List.cons_append]
          have hmax : jsizeL (x :: y :: ys) =
              jsize x + jsizeL (y :: ys) + 1 := rfl
          have hx : jsize x < f := by omega
          have hys : jsizeL (y :: ys) < f := by omega
          rw [show parseArrElems (f + 1)
              (printJson false x ++ ',' :: (printArrItems false (y :: ys) ++
                Char.ofNat 93 :: rest)) =
            (parseVal f (printJson false x ++ ',' :: (printArrItems false (y :: ys) ++
                Char.ofNat 93 :: rest))).bind (fun p =>
              match p.2 with
              | c2 :: r2 =>
                if c2 = ',' then (parseArrElems f r2).map (fun q => (p.1 :: q.1, q.2))
                else if c2 = Char.ofNat 93 then some ([p.1], r2)
                else none
              | [] => none) from by simp [parseArrElems]]
          rw [ihP x (',' :: (printArrItems false (y :: ys) ++ Char.ofNat 93 :: rest)) hx (by
            intro c hc
            simp only [List.head?_cons, Option.mem_def, Option.some_inj] at hc
            subst hc
            decide)]
          rw [show (some (x, ',' :: (printArrItems false (y :: ys) ++
              Char.ofNat 93 :: rest))).bind (fun p =>
              match p.2 with
              | c2 :: r2 =>
                if c2 = ',' then (parseArrElems f r2).map (fun q => ((p.1 : JsonVal) :: q.1, q.2))
                else if c2 = Char.ofNat 93 then some ([p.1], r2)
                else none
              | [] => none) =
            (parseArrElems f (printArrItems false (y :: ys) ++
              Char.ofNat 93 :: rest)).map (fun q => (x :: q.1, q.2)) from by simp]
          rw [ihQ (y :: ys) rest (by simp) hys]
          rfl
    · intro kvs rest hne hsz
      cases kvs with
      | nil => exact absurd rfl hne
      | cons p kvs2 =>
        obtain ⟨k, v⟩ := p
        have hobj : ∀ Y, parseObjMembers (f + 1) ('"' :: Y) =
            (parseStringChars Y).bind (fun kp =>
              match kp.2 with
              | c2 :: rest2 =>
                if c2 = ':' then
                  (parseVal f rest2).bind (fun vp =>
                    match vp.2 with
                    | c3 :: rest3 =>
                      if c3 = ',' then
                        (parseObjMembers f rest3).map
                          (fun q => ((String.mk kp.1, vp.1) :: q.1, q.2))
                      else if c3 = Char.ofNat 125 then some ([(String.mk kp.1, vp.1)], rest3)
                      else none
                    | [] => none)
                else none
              | [] => none) := by
          intro Y
          simp [parseObjMembers]
        cases kvs2 with
        | nil =>
          have hv : jsize v < f := by
            have : jsizeKV [(k, v)] = jsize v + 0 + 1 := rfl
            omega
          rw [show printObjItems false [(k, v)] ++ Char.ofNat 125 :: rest =
              '"' :: (k.data.flatMap (escapeChar false) ++
                ('"' :: (':' :: (printJson false v ++ Char.ofNat 125 :: rest)))) from by
            rw [show printObjItems false [(k, v)] =
                printStringLit false k ++ ':' :: printJson false v from rfl,
              show printStringLit false k =
                '"' :: (k.data.flatMap (escapeChar false) ++ ['"']) from rfl]
            simp]
          rw [hobj, parseStringChars_print]
          rw [show (some (k.data, ':' :: (printJson false v ++ Char.ofNat 125 :: rest))).bind
              (fun kp : List Char × List Char =>
                match kp.2 with
                | c2 :: rest2 =>
                  if c2 = ':' then
                    (parseVal f rest2).bind (fun vp =>
                      match vp.2 with
                      | c3 :: rest3 =>
                        if c3 = ',' then
                          (parseObjMembers f rest3).map
                            (fun q => ((String.mk kp.1, vp.1) :: q.1, q.2))
                        else if c3 = Char.ofNat 125 then some ([(String.mk kp.1, vp.1)], rest3)
                        else none
                      | [] => none)
                  else none
                | [] => none) =
              (parseVal f (printJson false v ++ Char.ofNat 125 :: rest)).bind (fun vp =>
                match vp.2 with
                | c3 :: rest3 =>
                  if c3 = ',' then
                    (parseObjMembers f rest3).map
                      (fun q => ((String.mk k.data, vp.1) :: q.1, q.2))
                  else if c3 = Char.ofNat 125 then some ([(String.mk k.data, vp.1)], rest3)
                  else none
                | [] => none) from by simp]
          rw [ihP v (Char.ofNat 125 :: rest) hv (by
            intro c hc
            simp only [List.head?_cons, Option.mem_def, Option.some_inj] at hc
            subst hc
            decide)]
          simp [string_mk_data]
        | cons q qs =>
          have hmax : jsizeKV ((k, v) :: q :: qs) =
              jsize v + jsizeKV (q :: qs) + 1 := rfl
          have hv : jsize v < f := by omega
          have hqs : jsizeKV (q :: qs) < f := by omega
          rw [show printObjItems false ((k, v) :: q :: qs) ++ Char.ofNat 125 :: rest =
              '"' :: (k.data.flatMap (escapeChar false) ++
                ('"' :: (':' :: (printJson false v ++
                  ',' :: (printObjItems false (q :: qs) ++ Char.ofNat 125 :: rest))))) from by
            rw [show printObjItems false ((k, v) :: q :: qs) =
                printStringLit false k ++ ':' :: printJson false v ++
                  ',' :: printObjItems false (q :: qs) from rfl,
              show printStringLit false k =
                '"' :: (k.data.flatMap (escapeChar false) ++ ['"']) from rfl]
            simp]
          rw [hobj, parseStringChars_print]
          rw [show (some (k.data, ':' :: (printJson false v ++
              ',' :: (printObjItems false (q :: qs) ++ Char.ofNat 125 :: rest)))).bind
              (fun kp : List Char × List Char =>
                match kp.2 with
                | c2 :: rest2 =>
                  if c2 = ':' then
                    (parseVal f rest2).bind (fun vp =>
                      match vp.2 with
                      | c3 :: rest3 =>
                        if c3 = ',' then
                          (parseObjMembers f rest3).map
                            (fun q2 => ((String.mk kp.1, vp.1) :: q2.1, q2.2))
                        else if c3 = Char.ofNat 125 then some ([(String.mk kp.1, vp.1)], rest3)
                        else none
                      | [] => none)
                  else none
                | [] => none) =
              (parseVal f (printJson false v ++
                ',' :: (printObjItems false (q :: qs) ++ Char.ofNat 125 :: rest))).bind
                (fun vp =>
                match vp.2 with
                | c3 :: rest3 =>
                  if c3 = ',' then
                    (parseObjMembers f rest3).map
                      (fun q2 => ((String.mk k.data, vp.1) :: q2.1, q2.2))
                  else if c3 = Char.ofNat 125 then some ([(String.mk k.data, vp.1)], rest3)
                  else none
                | [] => none) from by simp]
          rw [ihP v (',' :: (printObjItems false (q :: qs) ++ Char.ofNat 125 :: rest)) hv (by
            intro c hc
            simp only [List.head?_cons, Option.mem_def, Option.some_inj] at hc
            subst hc
            decide)]
          rw [show (some (v, ',' :: (printObjItems false (q :: qs) ++
              Char.ofNat 125 :: rest))).bind (fun vp : JsonVal × List Char =>
              match vp.2 with
              | c3 :: rest3 =>
                if c3 = ',' then
                  (parseObjMembers f rest3).map
                    (fun q2 => ((String.mk k.data, vp.1) :: q2.1, q2.2))
                else if c3 = Char.ofNat 125 then some ([(String.mk k.data, vp.1)], rest3)
                else none
              | [] => none) =
            (parseObjMembers f (printObjItems false (q :: qs) ++
              Char.ofNat 125 :: rest)).map
              (fun q2 => ((String.mk k.data, v) :: q2.1, q2.2)) from by simp]
          rw [ihR (q :: qs) rest (by simp) hqs]
          simp [string_mk_data]

theorem jsonValToEvent_eventToJsonVal (e : BCEvent) :
    jsonValToEvent (eventToJsonVal e) = some e := by
  cases e with
  | mk eid rid ts sid ty pe ph sig content =>
    cases pe with
    | none => cases ph <;> rfl
    | some s => cases ph <;> rfl

/-- C7: serialization is lossless: deserializing the JSONL line
produced by serializing a valid signed record yields the record
back, field for field — signature, content payload and the optional
`parent_event_id`/`prev_event_hash` included (validation runs again at
deserialization, so the record must validate at the reader's
clock). -/
theorem jsonl_round_trip (now_ms : Int) (e : BCEvent)
    (hvalid : validate_event now_ms e = true) :
    from_jsonl_line now_ms (to_jsonl_line e) = some e := by
  have hline : pyStrip (to_jsonl_line e) = printJson false (eventToJsonVal e) := by
    rw [to_jsonl_line]
    rw [show printJson false (eventToJsonVal e) =
        Char.ofNat 123 :: (printObjItems false
          [("event_id", JsonVal.str e.event_id),
           ("room_id", JsonVal.str e.room_id),
           ("timestamp_ms", JsonVal.num e.timestamp_ms),
           ("sender_id", JsonVal.str e.sender_id),
           ("type", JsonVal.str e.type),
           ("parent_event_id", optToJson e.parent_event_id),
           ("prev_event_hash", optToJson e.prev_event_hash),
           ("signature", JsonVal.str e.signature),
           ("content", JsonVal.obj e.content)] ++ [Char.ofNat 125]) from rfl]
    exact pyStrip_wrap _ _ _ (by decide) (by decide)
  have hparse : parseVal ((printJson false (eventToJsonVal e)).length + 1)
      (printJson false (eventToJsonVal e)) = some (eventToJsonVal e, []) := by
    have h := (parse_print ((printJson false (eventToJsonVal e)).length + 1)).1
      (eventToJsonVal e) []
      (by have := jsize_le_print (eventToJsonVal e); omega)
      (by intro c hc; simp at hc)
    rwa [List.append_nil] at h
  rw [from_jsonl_line, hline, hparse]
  show (jsonValToEvent (eventToJsonVal e)).bind
    (fun e => if validate_event now_ms e = true then some e else none) = some e
  rw [jsonValToEvent_eventToJsonVal]
  simp [hvalid]

/-- Witness for C7 on a concrete valid signed record. -/
theorem jsonl_round_trip_witness :
    validate_event 1000
      ⟨"room1::2025-01-01T00:00:00Z::u1", "room1", 1000, "alice", "m.room.message",
        none, some "PREV==", "SIG==", [("body", JsonVal.str "hi"), ("msgtype", JsonVal.str "m.text")]⟩ = true ∧
    from_jsonl_line 1000 (to_jsonl_line
      ⟨"room1::2025-01-01T00:00:00Z::u1", "room1", 1000, "alice", "m.room.message",
        none, some "PREV==", "SIG==", [("body", JsonVal.str "hi"), ("msgtype", JsonVal.str "m.text")]⟩) =
      some ⟨"room1::2025-01-01T00:00:00Z::u1", "room1", 1000, "alice", "m.room.message",
        none, some "PREV==", "SIG==", [("body", JsonVal.str "hi"), ("msgtype", JsonVal.str "m.text")]⟩ :=
  ⟨by decide, jsonl_round_trip 1000 _ (by decide)⟩
